import Mathlib

/-!
# Verification of the django-project-init config patcher and scaffolder

A shallow embedding of `django_project_init.py`.  Python strings are
modelled as `List Char`; a file's content is such a list, and a file on
disk is an `Option (List Char)`.  The Python `compile(...)` syntax check
(an external interpreter service) is abstracted as a boolean oracle
`syntaxOk : List Char → Bool` threaded through the functions that call it.
Filesystem-touching operations (`update_base_settings`, `update_main_urls`,
`create_file`, `create_directory`, `create_app_structure`, `main`) are
modelled as explicit state-passing functions over small filesystem records;
they additionally return a trace of write events so that ordering
properties ("backup before mutation") can be stated.  OS failures of a
single write are injected through oracles (`writeFails`, `can`).
-/

namespace DjangoInit

/-- A Python string, modelled as its list of characters. -/
abbrev LC := List Char

/-! ## Python string primitives -/

/-- The characters stripped by Python `str.strip()` (ASCII whitespace). -/
def isPySpace (c : Char) : Bool :=
  c == ' ' || c == '\t' || c == '\n' || c == '\r' || c == '\x0b' || c == '\x0c'

/-- Python `str.lstrip()`. -/
def pyLstrip (l : LC) : LC := l.dropWhile isPySpace

/-- Python `str.rstrip()`. -/
def pyRstrip (l : LC) : LC := (l.reverse.dropWhile isPySpace).reverse

/-- Python `str.strip()`. -/
def pyStrip (l : LC) : LC := pyRstrip (pyLstrip l)

/-- Python substring test `pat in l`. -/
def containsSub (pat : LC) : LC → Bool
  | [] => pat.isEmpty
  | c :: rest => pat.isPrefixOf (c :: rest) || containsSub pat rest

/-- Python `line[:-len(line.lstrip())]`: the run of leading whitespace of
`line`, except that it is empty when `line` is all whitespace (because
`line[:-0]` is `''` in Python). -/
def pyLeadingWhite (line : LC) : LC :=
  if (pyLstrip line).length = 0 then [] else line.take (line.length - (pyLstrip line).length)

/-- Python string comparison `a < b` (lexicographic on code points). -/
def lexLt : LC → LC → Bool
  | _, [] => false
  | [], _ :: _ => true
  | a :: as, b :: bs => if a = b then lexLt as bs else decide (a < b)

/-- ASCII uppercasing of one character, as used by Python `str.title()`. -/
def asciiUpper (c : Char) : Char :=
  if 'a' ≤ c ∧ c ≤ 'z' then Char.ofNat (c.toNat - 32) else c

/-- ASCII lowercasing of one character, as used by Python `str.title()`. -/
def asciiLower (c : Char) : Char :=
  if 'A' ≤ c ∧ c ≤ 'Z' then Char.ofNat (c.toNat + 32) else c

/-- Whether a character is cased (restricted to ASCII letters). -/
def asciiCased (c : Char) : Bool :=
  ('a' ≤ c && c ≤ 'z') || ('A' ≤ c && c ≤ 'Z')

/-- Worker for `pyTitle`; the flag records whether the previous character
was cased. -/
def pyTitleAux : Bool → LC → LC
  | _, [] => []
  | prevCased, c :: rest =>
    if asciiCased c then
      (if prevCased then asciiLower c else asciiUpper c) :: pyTitleAux true rest
    else
      c :: pyTitleAux false rest

/-- Python `str.title()` (restricted to ASCII casing, which is all the
script's inputs use). -/
def pyTitle (s : LC) : LC := pyTitleAux false s

/-- Python `content.split('\n')`. -/
def splitLines (l : LC) : List LC := l.splitOn '\n'

/-- Python `'\n'.join(lines)`. -/
def joinLines (ls : List LC) : LC := [('\n' : Char)].intercalate ls

/-! ## The line scan locating the anchor block

`append_app_to_base_settings` and `append_url_to_main_urls` share the same
loop shape (source lines 2436-2445 and 2661-2671):

    for i, line in enumerate(lines):
        if <line is an opening line>: start_index = i
        if start_index != -1 and <line is a closing line>:
            end_index = i
            break
-/

/-- The locate loop; `st` is the current `start_index` (`none` for `-1`)
and `i` the index of the next line.  Returns `some (start, end)` when the
loop breaks, `none` when it runs off the list. -/
def scanLoop (isStart isEnd : LC → Bool) : Option Nat → Nat → List LC → Option (Nat × Nat)
  | _, _, [] => none
  | st, i, line :: rest =>
    match (if isStart line then some i else st) with
    | some s => if isEnd line then some (s, i) else scanLoop isStart isEnd (some s) (i + 1) rest
    | none => scanLoop isStart isEnd none (i + 1) rest

/-- The value of `start_index` after scanning a list of lines without
breaking (used to reason about `scanLoop` on appended lists). -/
def scanStartAcc (isStart : LC → Bool) : Option Nat → Nat → List LC → Option Nat
  | st, _, [] => st
  | st, i, line :: rest => scanStartAcc isStart (if isStart line then some i else st) (i + 1) rest

/-- Opening-line test of the settings patcher:
`line.strip().startswith('INSTALLED_APPS') and '[' in line`. -/
def isStartSettings (line : LC) : Bool :=
  "INSTALLED_APPS".toList.isPrefixOf (pyStrip line) && containsSub "[".toList line

/-- Closing-line test of the settings patcher: `']' in line`. -/
def isEndSettings (line : LC) : Bool :=
  containsSub "]".toList line

/-- Opening-line test of the URLs patcher:
`line.strip().startswith('urlpatterns') and '[' in line`. -/
def isStartUrls (line : LC) : Bool :=
  "urlpatterns".toList.isPrefixOf (pyStrip line) && containsSub "[".toList line

/-- Closing-line test of the URLs patcher:
`']' in line and 'debug_toolbar' not in line`. -/
def isEndUrls (line : LC) : Bool :=
  containsSub "]".toList line && !containsSub "debug_toolbar".toList line

/-- Indentation detection (source lines 2452-2456 / 2683-2688): the
leading whitespace of the first line whose strip is non-empty and not a
comment; `[]` when no such line exists. -/
def detectIndent : List LC → LC
  | [] => []
  | line :: rest =>
    if !(pyStrip line).isEmpty && !("#".toList.isPrefixOf (pyStrip line)) then
      pyLeadingWhite line
    else detectIndent rest

/-! ## The settings patcher (`append_app_to_base_settings` and its validators) -/

/-- `validate_base_settings_content` (source lines 2375-2381). -/
def validate_base_settings_content (content : LC) : Bool × LC :=
  if (pyStrip content).isEmpty then (false, "Empty content".toList)
  else if !containsSub "INSTALLED_APPS".toList content then (false, "No INSTALLED_APPS found".toList)
  else (true, [])

/-- `validate_base_settings_result` (source lines 2393-2409); the Python
`compile` call is the `syntaxOk` oracle. -/
def validate_base_settings_result (syntaxOk : LC → Bool) (new_content : LC) : Bool × LC :=
  if !containsSub "INSTALLED_APPS".toList new_content then
    (false, "INSTALLED_APPS lost after modification".toList)
  else if !syntaxOk new_content then (false, "syntax error".toList)
  else if new_content.count '[' ≠ new_content.count ']' then (false, "Bracket mismatch".toList)
  else (true, [])

/-- The duplicate-check patterns (source lines 2462-2465):
`[f"{app_name}.apps.{app_name.title()}Config", app_name]`. -/
def app_patterns (app_name : LC) : List LC :=
  [app_name ++ ".apps.".toList ++ pyTitle app_name ++ "Config".toList, app_name]

/-- One iteration of the duplicate check (source lines 2466-2472): strip
the line, skip comments, and look for any pattern wrapped in single or
double quotes. -/
def lineMatchesApp (patterns : List LC) (line : LC) : Bool :=
  let l := pyStrip line
  if "#".toList.isPrefixOf l then false
  else patterns.any fun p =>
    containsSub ('\'' :: p ++ ['\'']) l || containsSub ('"' :: p ++ ['"']) l

/-- The new entry inserted by the settings patcher (source line 2475):
`f"{indent}'{app_name}.apps.{app_name.title()}Config',"`. -/
def settingsAppConfig (indent app_name : LC) : LC :=
  indent ++ ['\''] ++ app_name ++ ".apps.".toList ++ pyTitle app_name ++ "Config',".toList

/-- `append_app_to_base_settings` (source lines 2412-2487).  Returns
`(updated content, whether an update happened, info)`.  The list insert
`lines.insert(end_index, app_config)` is rendered as
`lines.take e ++ app_config :: lines.drop e`, which matches Python's
clamping insert for every index. -/
def append_app_to_base_settings (syntaxOk : LC → Bool) (content app_name : LC) :
    LC × Bool × LC :=
  if !(validate_base_settings_content content).1 then
    (content, false, "Pre-validation failed: ".toList ++ (validate_base_settings_content content).2)
  else if !syntaxOk content then
    (content, false, "Syntax validation failed".toList)
  else
    match scanLoop isStartSettings isEndSettings none 0 (splitLines content) with
    | none => (content, false, "INSTALLED_APPS not found or invalid format".toList)
    | some (s, e) =>
      let lines := splitLines content
      let existing := (lines.drop (s + 1)).take (e - (s + 1))
      let indent := detectIndent existing
      if indent.isEmpty then (content, false, "Cannot determine indentation".toList)
      else
        match existing.find? (lineMatchesApp (app_patterns app_name)) with
        | some line =>
          (content, false,
            "App already exists in line: ".toList ++ pyStrip line)
        | none =>
          let app_config := settingsAppConfig indent app_name
          let new_content := joinLines (lines.take e ++ app_config :: lines.drop e)
          if (validate_base_settings_result syntaxOk new_content).1 then
            (new_content, true, app_config)
          else
            (content, false,
              "Post-validation failed: ".toList ++ (validate_base_settings_result syntaxOk new_content).2)

/-! ## The URLs patcher (`append_url_to_main_urls` and its validators) -/

/-- `validate_main_urls_content` (source lines 2745-2755). -/
def validate_main_urls_content (content : LC) : Bool × LC :=
  if (pyStrip content).isEmpty then (false, "Empty content".toList)
  else if !containsSub "urlpatterns".toList content then (false, "No urlpatterns found".toList)
  else (true, [])

/-- `validate_main_urls_result` (source lines 2770-2812); the Python
`compile` call is the `syntaxOk` oracle. -/
def validate_main_urls_result (syntaxOk : LC → Bool) (new_content : LC) : Bool × LC :=
  if !containsSub "urlpatterns".toList new_content then
    (false, "urlpatterns lost after modification".toList)
  else if !syntaxOk new_content then (false, "syntax error".toList)
  else if !containsSub "from django.urls import".toList new_content then
    (false, "Missing django.urls import".toList)
  else if !((splitLines new_content).any fun line =>
      "from django.urls import".toList.isPrefixOf line &&
      containsSub "path".toList line && containsSub "include".toList line) then
    (false, "Missing required components in django.urls import".toList)
  else if new_content.count '[' ≠ new_content.count ']' then (false, "Bracket mismatch".toList)
  else (true, [])

/-- Fuel-indexed worker for `replaceAll`; the fuel is the length of the
string, which bounds the number of steps. -/
def replaceAllAux (pat rep : LC) : Nat → LC → LC
  | 0, s => s
  | _ + 1, [] => []
  | fuel + 1, c :: rest =>
    if !pat.isEmpty && pat.isPrefixOf (c :: rest) then
      rep ++ replaceAllAux pat rep fuel ((c :: rest).drop pat.length)
    else
      c :: replaceAllAux pat rep fuel rest

/-- Python `s.replace(pat, rep)`: replace every non-overlapping occurrence,
left to right. -/
def replaceAll (pat rep s : LC) : LC := replaceAllAux pat rep s.length s

/-- The first import-fixing loop of `append_url_to_main_urls` (source
lines 2638-2649).  Returns `(has_include_import, lines)`.  Setting the
flag in the `include` branch does not break the loop; the `path` branch
rewrites the current line and breaks. -/
def fixImportsLoop : List LC → Bool × List LC
  | [] => (false, [])
  | line :: rest =>
    if containsSub "from django.urls import".toList line then
      if containsSub "include".toList line then
        let r := fixImportsLoop rest
        (true, line :: r.2)
      else if containsSub "path".toList line then
        (true, replaceAll "import path".toList "import path, include".toList line :: rest)
      else
        let r := fixImportsLoop rest
        (r.1, line :: r.2)
    else
      let r := fixImportsLoop rest
      (r.1, line :: r.2)

/-- The import-insertion loop of `append_url_to_main_urls` (source lines
2651-2657): insert the import before the first line starting with
`from django.` or `from rest_framework`. -/
def insertImportLoop : List LC → List LC
  | [] => []
  | line :: rest =>
    if "from django.".toList.isPrefixOf line || "from rest_framework".toList.isPrefixOf line then
      "from django.urls import path, include".toList :: line :: rest
    else line :: insertImportLoop rest

/-- The line list seen by the URLs locate scan: the split content after
the import-fixing phase (source lines 2633-2657). -/
def fixedImportLines (content : LC) : List LC :=
  let r := fixImportsLoop (splitLines content)
  if r.1 then r.2 else insertImportLoop r.2

/-- The duplicate-check patterns of the URLs patcher (source lines
2696-2701). -/
def url_pattern_checks (app_name : LC) : List LC :=
  [ "path('".toList ++ app_name ++ "/'".toList,
    "path(\"".toList ++ app_name ++ "/\"".toList,
    "include('".toList ++ app_name ++ ".urls')".toList,
    "include(\"".toList ++ app_name ++ ".urls\")".toList ]

/-- One iteration of the URLs duplicate check (source lines 2702-2709):
strip the line, skip comments, and look for any pattern as a substring. -/
def lineMatchesUrl (patterns : List LC) (line : LC) : Bool :=
  let l := pyStrip line
  if "#".toList.isPrefixOf l then false
  else patterns.any fun p => containsSub p l

/-- The new URL entry (source lines 2714-2719): the `main` app maps to the
root URL, every other app to `path('<app>/', include('<app>.urls')),`. -/
def urlPatternLine (indent app_name : LC) : LC :=
  if app_name = "main".toList then
    indent ++ "path('', include('main.urls')),  # 主应用作为根URL".toList
  else
    indent ++ "path('".toList ++ app_name ++ "/', include('".toList ++ app_name ++ ".urls')),".toList

/-- `append_url_to_main_urls` (source lines 2610-2742).  Returns
`(updated content, whether an update happened, info)`.  On every failure
path the function returns the original `content` parameter, even though
the import-fixing phase may have modified the working line list. -/
def append_url_to_main_urls (syntaxOk : LC → Bool) (content app_name : LC) :
    LC × Bool × LC :=
  if !(validate_main_urls_content content).1 then
    (content, false, "Pre-validation failed: ".toList ++ (validate_main_urls_content content).2)
  else if !syntaxOk content then
    (content, false, "Syntax validation failed".toList)
  else
    let lines := fixedImportLines content
    match scanLoop isStartUrls isEndUrls none 0 lines with
    | none => (content, false, "urlpatterns not found or invalid format".toList)
    | some (s, e) =>
      let existing := (lines.drop (s + 1)).take (e - (s + 1))
      let indent := detectIndent existing
      if indent.isEmpty then (content, false, "Cannot determine indentation".toList)
      else
        match existing.find? (lineMatchesUrl (url_pattern_checks app_name)) with
        | some line =>
          (content, false, "URL pattern already exists in line: ".toList ++ pyStrip line)
        | none =>
          let url_pattern := urlPatternLine indent app_name
          let new_content := joinLines (lines.take e ++ url_pattern :: lines.drop e)
          if (validate_main_urls_result syntaxOk new_content).1 then
            (new_content, true, url_pattern)
          else
            (content, false,
              "Post-validation failed: ".toList ++ (validate_main_urls_result syntaxOk new_content).2)

/-! ## Filesystem model for the config update operations

Each of `update_base_settings` / `update_main_urls` touches one live file
and one backup directory; that is the whole visible state.  Write events
are traced so that ordering properties can be stated.  The only injected
OS failure is the one the source handles specially: the write of the new
content (`writeFails`); a failing write leaves `failContent` in the live
file before the exception propagates to the handlers. -/

/-- The state seen by one config update operation: the live config file
and the entries `(filename, content)` of its backup directory. -/
structure ConfigFs where
  live : Option LC
  backups : List (LC × LC)
  deriving DecidableEq

/-- A traced write: a file written into the backup directory, or a write
of the live config file (`ok = false` marks the failing, interrupted
write). -/
inductive FsEvent
  | backupWrite (name content : LC)
  | liveWrite (ok : Bool) (content : LC)
  deriving DecidableEq

/-- Whether an event writes into the backup directory. -/
def FsEvent.isBackup : FsEvent → Bool
  | .backupWrite _ _ => true
  | .liveWrite _ _ => false

/-- Whether a backup directory entry name matches the naming pattern
(prefix `pre`, suffix `.bak`), as filtered by `get_latest_backup`. -/
def matchesBackup (pre suf name : LC) : Bool :=
  pre.isPrefixOf name && suf.isSuffixOf name

/-- The nested `get_latest_backup` (source lines 2541-2547 / 2829-2838):
`sorted([f for f in listdir if f.startswith(pre) and f.endswith('.bak')],
reverse=True)[0]` — the entry whose name is lexicographically last among
those matching the pattern. -/
def get_latest_backup (pre suf : LC) : List (LC × LC) → Option (LC × LC)
  | [] => none
  | e :: rest =>
    match get_latest_backup pre suf rest with
    | none => if matchesBackup pre suf e.1 then some e else none
    | some b => if matchesBackup pre suf e.1 && lexLt b.1 e.1 then some e else some b

/-- The backup filename `f'{file}.{timestamp}.bak'`. -/
def backupName (filePre timestamp : LC) : LC := filePre ++ timestamp ++ ".bak".toList

/-- `update_base_settings` (source lines 2490-2607).  `timestamp` is the
`strftime` result; `writeFails` injects a failure of the write of the new
content, which leaves `failContent` in the live file before the exception
is handled.  Returns the new state, the boolean result, and the trace of
writes in order. -/
def update_base_settings (syntaxOk : LC → Bool) (timestamp : LC)
    (writeFails : Bool) (failContent : LC) (app_name : LC) (restore : Bool)
    (fs : ConfigFs) : ConfigFs × Bool × List FsEvent :=
  let pre := "base.py.".toList
  let suf := ".bak".toList
  let bname := backupName pre timestamp
  if restore then
    -- restore branch (source lines 2550-2562): copy the latest backup
    -- over the live file, failure when no backup matches.
    match get_latest_backup pre suf fs.backups with
    | some b => ({ fs with live := some b.2 }, true, [FsEvent.liveWrite true b.2])
    | none => (fs, false, [])
  else
    match fs.live with
    | none =>
      -- the live file does not exist: the backup step is skipped, the
      -- read raises, and the outer handler (source lines 2600-2607)
      -- restores the latest backup if any, returning False.
      match get_latest_backup pre suf fs.backups with
      | some b => ({ fs with live := some b.2 }, false, [FsEvent.liveWrite true b.2])
      | none => (fs, false, [])
    | some orig =>
      -- 1. create the new backup (source lines 2566-2567), 2. read the
      -- file, 3. patch the content.
      let fs1 : ConfigFs := { fs with backups := (bname, orig) :: fs.backups }
      let ev1 := FsEvent.backupWrite bname orig
      let r := append_app_to_base_settings syntaxOk orig app_name
      if r.2.1 then
        if writeFails then
          -- 4./5. the write fails mid-way (source lines 2592-2597): the
          -- inner handler copies the fresh backup back and re-raises; the
          -- outer handler (lines 2600-2607) restores the latest backup.
          match get_latest_backup pre suf fs1.backups with
          | some b =>
            ({ fs1 with live := some b.2 }, false,
              [ev1, FsEvent.liveWrite false failContent, FsEvent.liveWrite true orig,
                FsEvent.liveWrite true b.2])
          | none =>
            ({ fs1 with live := some orig }, false,
              [ev1, FsEvent.liveWrite false failContent, FsEvent.liveWrite true orig])
        else
          -- 4. write the updated content (source lines 2585-2591).
          ({ fs1 with live := some r.1 }, true, [ev1, FsEvent.liveWrite true r.1])
      else
        -- no update: the function returns False (source line 2598).
        (fs1, false, [ev1])

/-- `update_main_urls` (source lines 2815-2927); same structure as
`update_base_settings` with the URLs patcher, the `urls.py.` backup
prefix, and read/write copies instead of `shutil.copy2`. -/
def update_main_urls (syntaxOk : LC → Bool) (timestamp : LC)
    (writeFails : Bool) (failContent : LC) (app_name : LC) (restore : Bool)
    (fs : ConfigFs) : ConfigFs × Bool × List FsEvent :=
  let pre := "urls.py.".toList
  let suf := ".bak".toList
  let bname := backupName pre timestamp
  if restore then
    match get_latest_backup pre suf fs.backups with
    | some b => ({ fs with live := some b.2 }, true, [FsEvent.liveWrite true b.2])
    | none => (fs, false, [])
  else
    match fs.live with
    | none =>
      match get_latest_backup pre suf fs.backups with
      | some b => ({ fs with live := some b.2 }, false, [FsEvent.liveWrite true b.2])
      | none => (fs, false, [])
    | some orig =>
      let fs1 : ConfigFs := { fs with backups := (bname, orig) :: fs.backups }
      let ev1 := FsEvent.backupWrite bname orig
      let r := append_url_to_main_urls syntaxOk orig app_name
      if r.2.1 then
        if writeFails then
          match get_latest_backup pre suf fs1.backups with
          | some b =>
            ({ fs1 with live := some b.2 }, false,
              [ev1, FsEvent.liveWrite false failContent, FsEvent.liveWrite true orig,
                FsEvent.liveWrite true b.2])
          | none =>
            ({ fs1 with live := some orig }, false,
              [ev1, FsEvent.liveWrite false failContent, FsEvent.liveWrite true orig])
        else
          ({ fs1 with live := some r.1 }, true, [ev1, FsEvent.liveWrite true r.1])
      else
        (fs1, false, [ev1])

/-! ## Filesystem model for the scaffolder

`create_file` / `create_directory` (source lines 164-187) act on a store
of files (path to content) and a set of directories.  OS failures are
injected through the oracle `can : path → Bool`; an existence check never
fails.  `create_app_structure` (source lines 190-777) is transcribed with
its control flow intact; the fixed template payload strings of its two
file dictionaries are abstracted as the parameters `mvf_examples` and
`files` (lists of `(relative path, content)` pairs) and the per-directory
`__init__.py` payload as `initContent`, since no claim depends on the
payload text.  The dictionary `update` calls at source lines 311-386
happen after the only loop over `mvf_examples` and before the separate
`files` dictionary is built, so they create nothing and are omitted. -/

/-- The filesystem seen by the scaffolder. -/
structure ScafFs where
  files : List (LC × LC)
  dirs : List LC
  deriving DecidableEq

/-- Association lookup of a file's content by path (first match). -/
def findFile : List (LC × LC) → LC → Option LC
  | [], _ => none
  | e :: rest, p => if e.1 = p then some e.2 else findFile rest p

/-- Path join `a / b`. -/
def pjoin (a b : LC) : LC := a ++ "/".toList ++ b

/-- `create_directory` (source lines 164-172): `os.makedirs(exist_ok=True)`;
returns `False` exactly when the OS call fails. -/
def create_directory (can : LC → Bool) (path : LC) (fs : ScafFs) : ScafFs × Bool :=
  if can path then ({ fs with dirs := path :: fs.dirs }, true) else (fs, false)

/-- `create_file` (source lines 175-187): writes `content` only when no
file exists at `path`; an existing file is reported and left untouched,
and the function still returns `True`. -/
def create_file (can : LC → Bool) (path content : LC) (fs : ScafFs) : ScafFs × Bool :=
  match findFile fs.files path with
  | some _ => (fs, true)
  | none =>
    if can path then ({ fs with files := (path, content) :: fs.files }, true)
    else (fs, false)

/-- One traced create operation of the scaffolder, with its result. -/
inductive ScafEvent
  | mkdir (path : LC) (ok : Bool)
  | mkfile (path : LC) (ok : Bool)
  deriving DecidableEq

/-- The result flag of a traced create operation. -/
def ScafEvent.evOk : ScafEvent → Bool
  | .mkdir _ ok => ok
  | .mkfile _ ok => ok

/-- The fixed `directories` list of `create_app_structure` (source lines
198-216). -/
def app_directories (app_name : LC) : List LC :=
  [ "migrations".toList, "core".toList, "models".toList, "views".toList,
    "serializers".toList, "forms".toList,
    "templates/".toList ++ app_name,
    "templates/".toList ++ app_name ++ "/components".toList,
    "static/".toList ++ app_name ++ "/css".toList,
    "static/".toList ++ app_name ++ "/js".toList,
    "static/".toList ++ app_name ++ "/images".toList,
    "services".toList, "helpers".toList, "api".toList,
    "tests/test_services".toList, "management/commands".toList ]

/-- The directory loop of `create_app_structure` (source lines 224-232):
create each directory; on failure record it and `continue`; otherwise
create its `__init__.py` unless the directory is under `templates/` or
`static/`. -/
def dirLoop (can : LC → Bool) (initContent : LC → LC) (app_dir : LC) :
    List LC → ScafFs → ScafFs × Bool × List ScafEvent
  | [], fs => (fs, true, [])
  | d :: rest, fs =>
    let path := pjoin app_dir d
    let r1 := create_directory can path fs
    if !r1.2 then
      let r2 := dirLoop can initContent app_dir rest r1.1
      (r2.1, false, ScafEvent.mkdir path false :: r2.2.2)
    else if !(["templates/".toList, "static/".toList].any fun p => p.isPrefixOf d) then
      let fpath := pjoin path "__init__.py".toList
      let rf := create_file can fpath (initContent d) r1.1
      let r2 := dirLoop can initContent app_dir rest rf.1
      (r2.1, rf.2 && r2.2.1, ScafEvent.mkdir path true :: ScafEvent.mkfile fpath rf.2 :: r2.2.2)
    else
      let r2 := dirLoop can initContent app_dir rest r1.1
      (r2.1, r2.2.1, ScafEvent.mkdir path true :: r2.2.2)

/-- A loop `for file_path, content in d.items(): create_file(...)` with
the sticky success flag (source lines 306-308 and 772-774). -/
def fileLoop (can : LC → Bool) (app_dir : LC) :
    List (LC × LC) → ScafFs → ScafFs × Bool × List ScafEvent
  | [], fs => (fs, true, [])
  | e :: rest, fs =>
    let path := pjoin app_dir e.1
    let rf := create_file can path e.2 fs
    let r2 := fileLoop can app_dir rest rf.1
    (r2.1, rf.2 && r2.2.1, ScafEvent.mkfile path rf.2 :: r2.2.2)

/-- `create_app_structure` (source lines 190-777), with the template
payloads abstracted as parameters (see the section comment).  A failure to
create the base app directory returns `False` immediately (source lines
219-220); afterwards every failure only clears the sticky success flag. -/
def create_app_structure (can : LC → Bool) (initContent : LC → LC)
    (mvf_examples files : List (LC × LC)) (app_name base_dir : LC)
    (fs : ScafFs) : ScafFs × Bool × List ScafEvent :=
  let app_dir := pjoin (pjoin base_dir "apps".toList) app_name
  let r0 := create_directory can app_dir fs
  if !r0.2 then (r0.1, false, [ScafEvent.mkdir app_dir false])
  else
    let rd := dirLoop can initContent app_dir (app_directories app_name) r0.1
    let rm := fileLoop can app_dir mvf_examples rd.1
    let rf := fileLoop can app_dir files rm.1
    (rf.1, rd.2.1 && rm.2.1 && rf.2.1,
      ScafEvent.mkdir app_dir true :: (rd.2.2 ++ rm.2.2 ++ rf.2.2))

/-! ## `main`'s argument screening -/

/-- `FORBIDDEN_APP_NAMES` (source lines 23-31). -/
def FORBIDDEN_APP_NAMES : List LC :=
  [ "admin".toList, "auth".toList, "contenttypes".toList, "sessions".toList,
    "messages".toList, "staticfiles".toList, "sites".toList ]

/-- `APP_NAME_SUGGESTIONS` (source lines 34-39). -/
def APP_NAME_SUGGESTIONS : List (LC × List LC) :=
  [ ("admin".toList, ["management".toList, "administration".toList, "backend".toList]),
    ("auth".toList, ["authentication".toList, "accounts".toList, "users".toList]),
    ("staticfiles".toList, ["assets".toList, "resources".toList, "static_resources".toList]),
    ("messages".toList, ["notifications".toList, "alerts".toList]) ]

/-- Association lookup in `APP_NAME_SUGGESTIONS` (`dict.get`). -/
def lookupSuggestion : List (LC × List LC) → LC → Option (List LC)
  | [], _ => none
  | e :: rest, k => if e.1 = k then some e.2 else lookupSuggestion rest k

/-- The accumulation loop of `check_forbidden_app_names` (source lines
58-61), building the forbidden-name list and the suggestion map in
iteration order. -/
def forbiddenLoop : List LC → List LC × List (LC × List LC)
  | [] => ([], [])
  | n :: rest =>
    let r := forbiddenLoop rest
    if FORBIDDEN_APP_NAMES.contains n then
      (n :: r.1,
        (n, (lookupSuggestion APP_NAME_SUGGESTIONS n).getD ["custom_".toList ++ n]) :: r.2)
    else r

/-- `check_forbidden_app_names` (source lines 42-63); `none` models the
Python `None` argument. -/
def check_forbidden_app_names (app_names : Option (List LC)) :
    Bool × List LC × List (LC × List LC) :=
  match app_names with
  | none => (false, [], [])
  | some names =>
    let r := forbiddenLoop names
    (!r.1.isEmpty, r.1, r.2)

/-- The parsed command-line arguments (source lines 81-161). -/
structure Args where
  restoreFlag : Bool
  mode : LC
  project : LC
  apps : Option (List LC)
  auto_update : Bool
  guide : Bool
  guide_output : LC
  no_rest_swagger : Bool

/-- The decision prefix of `main` (source lines 3807-3858 and the mode
dispatch): the forbidden-name screen runs first (lines 3812-3823), before
the guide, restore, init and add phases; those phases are abstracted as
filesystem transformers since no claim depends on their internals.
`args.apps` is truthy in Python only when it is a non-empty list. -/
def main (guidePhase restorePhase initPhase addPhase : ScafFs → ScafFs × Bool)
    (args : Args) (fs : ScafFs) : ScafFs × Bool :=
  let appsTruthy := match args.apps with
    | some l => !l.isEmpty
    | none => false
  if appsTruthy && (check_forbidden_app_names args.apps).1 then (fs, false)
  else if args.guide then guidePhase fs
  else if args.restoreFlag then restorePhase fs
  else if args.mode = "init".toList then initPhase fs
  else if args.mode = "add".toList then addPhase fs
  else (fs, false)

/-! ## The locate rule as the spec states it (for claim C8)

Modelled from the spec's words, for refinement comparison only: "locate
the anchor's opening line and its matching closing line by scanning for
the first line containing the closing bracket **after** the opening line",
read with "strictly after" as claim C8 states it. -/

/-- The claim's reading of the locate rule: opening line is the first line
satisfying `isStart`; closing line is the first line satisfying `isEnd`
strictly after it. -/
def locateSpecStrict (isStart isEnd : LC → Bool) (lines : List LC) : Option (Nat × Nat) :=
  match lines.findIdx? isStart with
  | none => none
  | some s =>
    match (lines.drop (s + 1)).findIdx? isEnd with
    | none => none
    | some k => some (s, s + 1 + k)

/-! ## Basic lemmas: characters, prefixes, substrings, stripping -/

theorem char_toNat_ofNat {n : Nat} (h : n < 55296) : (Char.ofNat n).toNat = n := by
  have hv : Char.isValidCharNat n := Or.inl h
  rw [Char.ofNat, dif_pos hv]
  simp [Char.ofNatAux, Char.toNat, UInt32.ofNat', UInt32.toNat, BitVec.toNat_ofNatLt]

theorem char_eq_of_toNat_eq {a b : Char} (h : a.toNat = b.toNat) : a = b := by
  apply Char.ext
  apply UInt32.toNat.inj h

theorem asciiUpper_eq_self_or_range (c : Char) :
    asciiUpper c = c ∨ (65 ≤ (asciiUpper c).toNat ∧ (asciiUpper c).toNat ≤ 90) := by
  unfold asciiUpper
  split
  · next h =>
    right
    obtain ⟨h1, h2⟩ := h
    rw [Char.le_def, UInt32.le_def, BitVec.le_def] at h1 h2
    have hb : (97 : Nat) ≤ c.toNat := h1
    have hb2 : c.toNat ≤ 122 := h2
    rw [char_toNat_ofNat (by omega)]
    omega
  · exact Or.inl rfl

theorem asciiLower_eq_self_or_range (c : Char) :
    asciiLower c = c ∨ (97 ≤ (asciiLower c).toNat ∧ (asciiLower c).toNat ≤ 122) := by
  unfold asciiLower
  split
  · next h =>
    right
    obtain ⟨h1, h2⟩ := h
    rw [Char.le_def, UInt32.le_def, BitVec.le_def] at h1 h2
    have hb : (65 : Nat) ≤ c.toNat := h1
    have hb2 : c.toNat ≤ 90 := h2
    rw [char_toNat_ofNat (by omega)]
    omega
  · exact Or.inl rfl

/-- A character outside both ASCII letter ranges occurs in `pyTitleAux b s`
only if it occurs in `s`. -/
theorem mem_of_mem_pyTitleAux {x : Char}
    (hup : ¬(65 ≤ x.toNat ∧ x.toNat ≤ 90)) (hlo : ¬(97 ≤ x.toNat ∧ x.toNat ≤ 122)) :
    ∀ (b : Bool) (s : LC), x ∈ pyTitleAux b s → x ∈ s := by
  intro b s
  induction s generalizing b with
  | nil => simp [pyTitleAux]
  | cons c rest ih =>
    intro hx
    simp only [pyTitleAux] at hx
    split at hx
    · rcases List.mem_cons.1 hx with h | h
      · subst h
        cases b with
        | true =>
          simp only [if_true] at hup hlo ⊢
          rcases asciiLower_eq_self_or_range c with he | hr
          · rw [he]
            exact List.mem_cons_self _ _
          · exact absurd hr hlo
        | false =>
          rcases asciiUpper_eq_self_or_range c with he | hr
          · rw [he]
            exact List.mem_cons_self _ _
          · exact absurd hr hup
      · exact List.mem_cons_of_mem _ (ih _ h)
    · rcases List.mem_cons.1 hx with h | h
      · exact h ▸ List.mem_cons_self _ _
      · exact List.mem_cons_of_mem _ (ih _ h)

theorem mem_of_mem_pyTitle {x : Char} {s : LC}
    (hup : ¬(65 ≤ x.toNat ∧ x.toNat ≤ 90)) (hlo : ¬(97 ≤ x.toNat ∧ x.toNat ≤ 122))
    (hx : x ∈ pyTitle s) : x ∈ s :=
  mem_of_mem_pyTitleAux hup hlo false s hx

theorem isPrefixOf_append_self : ∀ (p t : LC), p.isPrefixOf (p ++ t) = true
  | [], _ => by simp
  | a :: as, t => by
    simp only [List.cons_append, List.isPrefixOf_cons₂_self]
    exact isPrefixOf_append_self as t

theorem mem_of_isPrefixOf {a : Char} : ∀ {p l : LC}, p.isPrefixOf l = true → a ∈ p → a ∈ l := by
  intro p
  induction p with
  | nil => simp
  | cons c rest ih =>
    intro l hp ha
    cases l with
    | nil => simp [List.isPrefixOf] at hp
    | cons d dl =>
      simp only [List.isPrefixOf_cons₂, Bool.and_eq_true, beq_iff_eq] at hp
      obtain ⟨hcd, hrest⟩ := hp
      rcases List.mem_cons.1 ha with h | h
      · exact h ▸ hcd ▸ List.mem_cons_self _ _
      · exact List.mem_cons_of_mem _ (ih hrest h)

theorem containsSub_of_isPrefixOf {p l : LC} (h : p.isPrefixOf l = true) :
    containsSub p l = true := by
  cases l with
  | nil =>
    cases p with
    | nil => rfl
    | cons c rest => simp [List.isPrefixOf] at h
  | cons c rest => simp [containsSub, h]

theorem mem_of_containsSub {a : Char} : ∀ {l p : LC},
    containsSub p l = true → a ∈ p → a ∈ l := by
  intro l
  induction l with
  | nil =>
    intro p hc ha
    cases p with
    | nil => cases ha
    | cons c rest => simp [containsSub, List.isEmpty] at hc
  | cons c rest ih =>
    intro p hc ha
    simp only [containsSub, Bool.or_eq_true] at hc
    rcases hc with h | h
    · exact mem_of_isPrefixOf h ha
    · exact List.mem_cons_of_mem _ (ih h ha)

theorem containsSub_single {c : Char} : ∀ {l : LC}, containsSub [c] l = true ↔ c ∈ l := by
  intro l
  induction l with
  | nil => simp [containsSub, List.isEmpty]
  | cons d rest ih =>
    simp only [containsSub, Bool.or_eq_true, List.isPrefixOf, Bool.and_eq_true, ih,
      List.isPrefixOf_nil_left, and_true, List.mem_cons, beq_iff_eq]

theorem not_containsSub_single {c : Char} {l : LC} (h : c ∉ l) : containsSub [c] l = false := by
  rcases hb : containsSub [c] l with _ | _
  · rfl
  · exact absurd (containsSub_single.1 hb) h

theorem pyLstrip_space_append {ws : LC} (hws : ∀ a ∈ ws, isPySpace a = true) (l : LC) :
    pyLstrip (ws ++ l) = pyLstrip l := by
  induction ws with
  | nil => simp
  | cons c rest ih =>
    have hc : isPySpace c = true := hws c (List.mem_cons_self _ _)
    simp only [List.cons_append, pyLstrip, List.dropWhile_cons, hc, if_true]
    exact ih fun a ha => hws a (List.mem_cons_of_mem _ ha)

theorem pyLstrip_cons_of_not_space {x : Char} (hx : isPySpace x = false) (l : LC) :
    pyLstrip (x :: l) = x :: l := by
  simp [pyLstrip, List.dropWhile_cons, hx]

theorem pyRstrip_of_last_not_space {y : Char} (hy : isPySpace y = false) (l : LC) :
    pyRstrip (l ++ [y]) = l ++ [y] := by
  simp [pyRstrip, List.dropWhile_cons, hy]

/-- Stripping a string of the form `whitespace ++ x :: mid ++ [y]` with
`x`, `y` non-space leaves `x :: mid ++ [y]`. -/
theorem pyStrip_sandwich {ws : LC} {x y : Char} {mid : LC}
    (hws : ∀ a ∈ ws, isPySpace a = true) (hx : isPySpace x = false)
    (hy : isPySpace y = false) :
    pyStrip (ws ++ x :: (mid ++ [y])) = x :: (mid ++ [y]) := by
  unfold pyStrip
  rw [pyLstrip_space_append hws, pyLstrip_cons_of_not_space hx]
  have : x :: (mid ++ [y]) = (x :: mid) ++ [y] := by simp
  rw [this, pyRstrip_of_last_not_space hy]

theorem mem_dropWhile_of_mem {p : Char → Bool} {a : Char} :
    ∀ {l : LC}, a ∈ l → p a = false → a ∈ l.dropWhile p := by
  intro l
  induction l with
  | nil => simp
  | cons c rest ih =>
    intro ha hpa
    by_cases hc : p c
    · rcases List.mem_cons.1 ha with h | h
      · exact absurd (h ▸ hc) (by simp [hpa])
      · simpa [List.dropWhile_cons, hc] using ih h hpa
    · simpa [List.dropWhile_cons, hc] using ha

theorem mem_pyStrip_of_mem {a : Char} {l : LC} (ha : a ∈ l) (hs : isPySpace a = false) :
    a ∈ pyStrip l := by
  unfold pyStrip pyRstrip pyLstrip
  have h1 : a ∈ l.dropWhile isPySpace := mem_dropWhile_of_mem ha hs
  have h2 : a ∈ (l.dropWhile isPySpace).reverse := List.mem_reverse.2 h1
  exact List.mem_reverse.2 (mem_dropWhile_of_mem h2 hs)

theorem pyStrip_isEmpty_false_of_mem {a : Char} {l : LC} (ha : a ∈ l)
    (hs : isPySpace a = false) : (pyStrip l).isEmpty = false := by
  rcases h : pyStrip l with _ | _
  · exact absurd (h ▸ mem_pyStrip_of_mem ha hs) (List.not_mem_nil a)
  · rfl

theorem take_sub_dropWhile (p : Char → Bool) :
    ∀ l : LC, l.take (l.length - (l.dropWhile p).length) = l.takeWhile p := by
  intro l
  induction l with
  | nil => rfl
  | cons c rest ih =>
    by_cases hc : p c
    · have hlen : (rest.dropWhile p).length ≤ rest.length := (List.dropWhile_sublist _).length_le
      have harith : (c :: rest).length - ((c :: rest).dropWhile p).length =
          (rest.length - (rest.dropWhile p).length) + 1 := by
        simp only [List.dropWhile_cons, hc, if_true, List.length_cons]
        omega
      rw [harith]
      simp only [List.take_succ_cons, List.takeWhile_cons, hc, if_true]
      rw [ih]
    · simp [List.dropWhile_cons, List.takeWhile_cons, hc]

theorem pyLeadingWhite_eq_takeWhile_or_nil (l : LC) :
    pyLeadingWhite l = l.takeWhile isPySpace ∨ pyLeadingWhite l = [] := by
  unfold pyLeadingWhite
  split
  · exact Or.inr rfl
  · exact Or.inl (take_sub_dropWhile isPySpace l)

theorem mem_pyLeadingWhite {a : Char} {l : LC} (ha : a ∈ pyLeadingWhite l) :
    isPySpace a = true ∧ a ∈ l := by
  rcases pyLeadingWhite_eq_takeWhile_or_nil l with h | h
  · rw [h] at ha
    exact ⟨List.mem_takeWhile_imp ha, (List.takeWhile_sublist isPySpace).subset ha⟩
  · rw [h] at ha
    cases ha

/-! ## Lemmas about `splitLines` / `joinLines` -/

theorem splitLines_ne_nil (l : LC) : splitLines l ≠ [] :=
  List.splitOnP_ne_nil _ l

theorem mem_splitOnP_not_p {p : Char → Bool} :
    ∀ (xs : List Char) (l : LC), l ∈ xs.splitOnP p → ∀ a ∈ l, p a = false := by
  intro xs
  induction xs with
  | nil =>
    intro l hl
    simp only [List.splitOnP_nil, List.mem_singleton] at hl
    subst hl
    simp
  | cons hd tl ih =>
    intro l hl a ha
    rw [List.splitOnP_cons] at hl
    by_cases hp : p hd
    · rw [if_pos hp] at hl
      rcases List.mem_cons.1 hl with h | h
      · subst h
        cases ha
      · exact ih l h a ha
    · rw [if_neg hp] at hl
      rcases hsp : tl.splitOnP p with _ | ⟨h', t'⟩
      · exact absurd hsp (List.splitOnP_ne_nil p tl)
      · rw [hsp] at hl
        simp only [List.modifyHead] at hl
        rcases List.mem_cons.1 hl with h | h
        · subst h
          rcases List.mem_cons.1 ha with h2 | h2
          · subst h2
            simpa using hp
          · exact ih h' (hsp ▸ List.mem_cons_self _ _) a h2
        · exact ih l (hsp ▸ List.mem_cons_of_mem _ h) a ha

theorem splitLines_no_newline {content l : LC} (hl : l ∈ splitLines content) :
    ('\n' : Char) ∉ l := by
  intro hmem
  have := mem_splitOnP_not_p content l hl '\n' hmem
  simp at this

theorem splitLines_joinLines {ls : List LC} (h : ∀ l ∈ ls, ('\n' : Char) ∉ l)
    (h2 : ls ≠ []) : splitLines (joinLines ls) = ls :=
  List.splitOn_intercalate ls '\n' h h2

/-! ## Lemmas about `lexLt` and `get_latest_backup` -/

theorem lexLt_irrefl : ∀ (a : LC), lexLt a a = false
  | [] => rfl
  | c :: rest => by simp [lexLt, lexLt_irrefl rest]

theorem lexLt_asymm : ∀ {a b : LC}, lexLt a b = true → lexLt b a = false
  | [], [], h => by simp [lexLt] at h
  | [], _ :: _, _ => rfl
  | _ :: _, [], h => by simp [lexLt] at h
  | a :: as, b :: bs, h => by
    by_cases hab : a = b
    · subst hab
      simp only [lexLt, if_true, if_pos rfl] at h ⊢
      exact lexLt_asymm h
    · simp only [lexLt, if_neg hab, if_neg (Ne.symm hab)] at h ⊢
      have hlt : a < b := of_decide_eq_true h
      simp [Char.lt_asymm hlt]

theorem isSuffixOf_append_self (s t : LC) : s.isSuffixOf (t ++ s) = true := by
  simp only [List.isSuffixOf, List.reverse_append]
  exact isPrefixOf_append_self s.reverse t.reverse

theorem matchesBackup_backupName (pre ts : LC) :
    matchesBackup pre ".bak".toList (backupName pre ts) = true := by
  unfold matchesBackup backupName
  rw [Bool.and_eq_true]
  constructor
  · rw [List.append_assoc]
    exact isPrefixOf_append_self pre _
  · exact isSuffixOf_append_self _ _

theorem get_latest_backup_mem {pre suf : LC} :
    ∀ {l : List (LC × LC)} {b}, get_latest_backup pre suf l = some b →
      b ∈ l ∧ matchesBackup pre suf b.1 = true := by
  intro l
  induction l with
  | nil => intro b h; cases h
  | cons e rest ih =>
    intro b h
    unfold get_latest_backup at h
    split at h
    · next hr =>
      by_cases hm : matchesBackup pre suf e.1 = true
      · rw [if_pos hm] at h
        injection h with h
        subst h
        exact ⟨List.mem_cons_self _ _, hm⟩
      · rw [if_neg hm] at h
        cases h
    · next b' hr =>
      by_cases hm : (matchesBackup pre suf e.1 && lexLt b'.1 e.1) = true
      · rw [if_pos hm] at h
        injection h with h
        subst h
        rw [Bool.and_eq_true] at hm
        exact ⟨List.mem_cons_self _ _, hm.1⟩
      · rw [if_neg hm] at h
        injection h with h
        subst h
        obtain ⟨hmem, hmatch⟩ := ih hr
        exact ⟨List.mem_cons_of_mem _ hmem, hmatch⟩

theorem get_latest_backup_eq_none {pre suf : LC} :
    ∀ {l : List (LC × LC)}, (∀ x ∈ l, matchesBackup pre suf x.1 = false) →
      get_latest_backup pre suf l = none := by
  intro l
  induction l with
  | nil => intro _; rfl
  | cons e rest ih =>
    intro h
    have he : matchesBackup pre suf e.1 = false := h e (List.mem_cons_self _ _)
    have hrest := ih fun x hx => h x (List.mem_cons_of_mem _ hx)
    simp [get_latest_backup, hrest, he]

theorem get_latest_backup_cons_ne_none {pre suf : LC} {e : LC × LC} {l : List (LC × LC)}
    (h : matchesBackup pre suf e.1 = true) : get_latest_backup pre suf (e :: l) ≠ none := by
  intro hnone
  unfold get_latest_backup at hnone
  split at hnone
  · rw [if_pos h] at hnone
    cases hnone
  · next b' hr =>
    by_cases hm : (matchesBackup pre suf e.1 && lexLt b'.1 e.1) = true
    · rw [if_pos hm] at hnone
      cases hnone
    · rw [if_neg hm] at hnone
      cases hnone

/-- When `m` is a matching entry whose name strictly dominates every other
matching entry, `get_latest_backup` selects `m`. -/
theorem get_latest_backup_dominant {pre suf : LC} :
    ∀ {l : List (LC × LC)} {m : LC × LC}, m ∈ l → matchesBackup pre suf m.1 = true →
      (∀ x ∈ l, x ≠ m → matchesBackup pre suf x.1 = true → lexLt x.1 m.1 = true) →
      get_latest_backup pre suf l = some m := by
  intro l
  induction l with
  | nil => intro m hm; cases hm
  | cons e rest ih =>
    intro m hm hmatch hdom
    by_cases hem : e = m
    · subst hem
      simp only [get_latest_backup]
      rcases hr : get_latest_backup pre suf rest with _ | b
      · simp [hmatch]
      · obtain ⟨hbmem, hbmatch⟩ := get_latest_backup_mem hr
        by_cases hbe : b = e
        · subst hbe
          simp [hmatch, lexLt_irrefl]
        · have hlt : lexLt b.1 e.1 = true :=
            hdom b (List.mem_cons_of_mem _ hbmem) hbe hbmatch
          simp [hmatch, hlt]
    · have hmrest : m ∈ rest := by
        rcases List.mem_cons.1 hm with h | h
        · exact absurd h.symm hem
        · exact h
      have hrest : get_latest_backup pre suf rest = some m :=
        ih hmrest hmatch fun x hx => hdom x (List.mem_cons_of_mem _ hx)
      simp only [get_latest_backup, hrest]
      by_cases hematch : matchesBackup pre suf e.1 = true
      · have hlt : lexLt e.1 m.1 = true := hdom e (List.mem_cons_self _ _) hem hematch
        have hnlt : lexLt m.1 e.1 = false := lexLt_asymm hlt
        simp [hematch, hnlt]
      · simp [Bool.eq_false_iff.2 hematch]

/-! ## Lemmas about the locate scan -/

theorem scanLoop_nil {isStart isEnd : LC → Bool} {st : Option Nat} {i : Nat} :
    scanLoop isStart isEnd st i [] = none := rfl

theorem scanStartAcc_nil {isStart : LC → Bool} {st : Option Nat} {i : Nat} :
    scanStartAcc isStart st i [] = st := rfl

theorem scanStartAcc_cons {isStart : LC → Bool} {st : Option Nat} {i : Nat} {l : LC}
    {rest : List LC} :
    scanStartAcc isStart st i (l :: rest) =
      scanStartAcc isStart (if isStart l then some i else st) (i + 1) rest := rfl

theorem scanLoop_cons_break {isStart isEnd : LC → Bool} {st : Option Nat} {i : Nat}
    {l : LC} {rest : List LC} {s₁ : Nat}
    (h1 : (if isStart l then some i else st) = some s₁) (h2 : isEnd l = true) :
    scanLoop isStart isEnd st i (l :: rest) = some (s₁, i) := by
  conv_lhs => unfold scanLoop
  rw [h1]
  simp [h2]

theorem scanLoop_cons_step {isStart isEnd : LC → Bool} {st : Option Nat} {i : Nat}
    {l : LC} {rest : List LC} {s₁ : Nat}
    (h1 : (if isStart l then some i else st) = some s₁) (h2 : isEnd l = false) :
    scanLoop isStart isEnd st i (l :: rest) = scanLoop isStart isEnd (some s₁) (i + 1) rest := by
  conv_lhs => unfold scanLoop
  rw [h1]
  simp [h2]

theorem scanLoop_cons_none {isStart isEnd : LC → Bool} {st : Option Nat} {i : Nat}
    {l : LC} {rest : List LC}
    (h1 : (if isStart l then some i else st) = none) :
    scanLoop isStart isEnd st i (l :: rest) = scanLoop isStart isEnd none (i + 1) rest := by
  conv_lhs => unfold scanLoop
  rw [h1]

theorem getD_eq_getElem {l : List LC} {n : Nat} (h : n < l.length) : l.getD n [] = l[n] := by
  simp [List.getD_eq_getElem?_getD, List.getElem?_eq_getElem h]

theorem getD_take_of_lt (l : List LC) {m n : Nat} (h : m < n) :
    (l.take n).getD m [] = l.getD m [] := by
  simp [List.getD_eq_getElem?_getD, List.getElem?_take_of_lt h]

/-- Where the final `start_index` of a break-free scan can point. -/
theorem scanStartAcc_some {isStart : LC → Bool} :
    ∀ {ls : List LC} {st : Option Nat} {i s : Nat},
      scanStartAcc isStart st i ls = some s →
      st = some s ∨ (i ≤ s ∧ s - i < ls.length ∧ isStart (ls.getD (s - i) []) = true) := by
  intro ls
  induction ls with
  | nil =>
    intro st i s h
    rw [scanStartAcc_nil] at h
    exact Or.inl h
  | cons l rest ih =>
    intro st i s h
    rw [scanStartAcc_cons] at h
    rcases ih h with h' | ⟨h1, h2, h3⟩
    · by_cases hS : isStart l = true
      · rw [if_pos hS] at h'
        injection h' with h'
        subst h'
        right
        refine ⟨Nat.le_refl _, by simp, ?_⟩
        simpa using hS
      · rw [if_neg (by simpa using hS)] at h'
        exact Or.inl h'
    · right
      have hsi : s - i = (s - (i + 1)) + 1 := by omega
      refine ⟨by omega, by simp; omega, ?_⟩
      rw [hsi, List.getD_cons_succ]
      exact h3

/-- The returned `start_index` either came from the accumulator or points
at or past the current position. -/
theorem scanLoop_some_start_ge {isStart isEnd : LC → Bool} :
    ∀ {ls : List LC} {st : Option Nat} {i s e : Nat},
      scanLoop isStart isEnd st i ls = some (s, e) → st = some s ∨ i ≤ s := by
  intro ls
  induction ls with
  | nil =>
    intro st i s e h
    cases h
  | cons l rest ih =>
    intro st i s e h
    rcases hc : (if isStart l then some i else st) with _ | s₁
    · rw [scanLoop_cons_none hc] at h
      rcases ih h with h' | h'
      · cases h'
      · exact Or.inr (by omega)
    · by_cases hE : isEnd l = true
      · rw [scanLoop_cons_break hc hE] at h
        injection h with h
        injection h with hs he
        subst hs
        by_cases hS : isStart l = true
        · rw [if_pos hS] at hc
          injection hc with hc
          exact Or.inr (Nat.le_of_eq hc)
        · rw [if_neg (by simpa using hS)] at hc
          exact Or.inl hc
      · rw [scanLoop_cons_step hc (by simpa using hE)] at h
        rcases ih h with h' | h'
        · injection h' with h'
          subst h'
          by_cases hS : isStart l = true
          · rw [if_pos hS] at hc
            injection hc with hc
            exact Or.inr (Nat.le_of_eq hc)
          · rw [if_neg (by simpa using hS)] at hc
            exact Or.inl hc
        · exact Or.inr (by omega)

/-- Soundness of the locate scan: where the break happened, what the
closing line satisfies, that no break was possible earlier, where the
opening index came from, and the two interval properties (no closing line
between `s` and `e`, no opening line after `s` up to `e`). -/
theorem scanLoop_sound {isStart isEnd : LC → Bool} :
    ∀ {ls : List LC} {st : Option Nat} {i s e : Nat},
      scanLoop isStart isEnd st i ls = some (s, e) →
      i ≤ e ∧ e - i < ls.length ∧
      isEnd (ls.getD (e - i) []) = true ∧
      scanLoop isStart isEnd st i (ls.take (e - i)) = none ∧
      ((isStart (ls.getD (e - i) []) = true ∧ s = e) ∨
        (isStart (ls.getD (e - i) []) = false ∧
          scanStartAcc isStart st i (ls.take (e - i)) = some s)) ∧
      (∀ j, j < ls.length → s ≤ i + j → i + j < e → isEnd (ls.getD j []) = false) ∧
      (∀ j, j < ls.length → s < i + j → i + j ≤ e → isStart (ls.getD j []) = false) := by
  intro ls
  induction ls with
  | nil =>
    intro st i s e h
    cases h
  | cons l rest ih =>
    intro st i s e h
    rcases hc : (if isStart l then some i else st) with _ | s₁
    -- accumulator stays empty: the head line is not a start line and no
    -- break can fire on it
    · have hS : isStart l = false := by
        by_cases hS : isStart l = true
        · rw [if_pos hS] at hc
          cases hc
        · simpa using hS
      rw [scanLoop_cons_none hc] at h
      obtain ⟨hie, hlen, hEnd, htake, hdisj, hnoend, hnostart⟩ := ih h
      have hge : i + 1 ≤ s := by
        rcases scanLoop_some_start_ge h with h' | h'
        · cases h'
        · exact h'
      have hei : e - i = (e - (i + 1)) + 1 := by omega
      refine ⟨by omega, by simp; omega, ?_, ?_, ?_, ?_, ?_⟩
      · rw [hei, List.getD_cons_succ]
        exact hEnd
      · rw [hei, List.take_succ_cons, scanLoop_cons_none hc]
        exact htake
      · rw [hei, List.getD_cons_succ, List.take_succ_cons, scanStartAcc_cons, hc]
        exact hdisj
      · intro j hj hs hlt
        cases j with
        | zero => omega
        | succ j' =>
          rw [List.getD_cons_succ]
          exact hnoend j' (by simpa using hj) (by omega) (by omega)
      · intro j hj hs hle
        cases j with
        | zero =>
          simpa using hS
        | succ j' =>
          rw [List.getD_cons_succ]
          exact hnostart j' (by simpa using hj) (by omega) (by omega)
    -- accumulator holds s₁ after the head line
    · by_cases hE : isEnd l = true
      -- the loop breaks at the head line
      · rw [scanLoop_cons_break hc hE] at h
        injection h with h
        injection h with hs he
        subst hs
        subst he
        refine ⟨Nat.le_refl _, by simp, by simpa using hE,
          by rw [Nat.sub_self, List.take_zero]; exact scanLoop_nil, ?_, ?_, ?_⟩
        · by_cases hS : isStart l = true
          · rw [if_pos hS] at hc
            injection hc with hc
            left
            exact ⟨by simpa using hS, hc.symm⟩
          · rw [if_neg (by simpa using hS)] at hc
            right
            refine ⟨by simpa using hS, ?_⟩
            rw [Nat.sub_self, List.take_zero, scanStartAcc_nil]
            exact hc
        · intro j hj hs hlt
          omega
        · intro j hj hs hle
          have hj0 : j = 0 := by omega
          subst hj0
          by_cases hS : isStart l = true
          · rw [if_pos hS] at hc
            injection hc with hc
            omega
          · simpa using hS
      -- the loop continues past the head line
      · have hE' : isEnd l = false := by simpa using hE
        rw [scanLoop_cons_step hc hE'] at h
        obtain ⟨hie, hlen, hEnd, htake, hdisj, hnoend, hnostart⟩ := ih h
        have hei : e - i = (e - (i + 1)) + 1 := by omega
        refine ⟨by omega, by simp; omega, ?_, ?_, ?_, ?_, ?_⟩
        · rw [hei, List.getD_cons_succ]
          exact hEnd
        · rw [hei, List.take_succ_cons, scanLoop_cons_step hc hE']
          exact htake
        · rw [hei, List.getD_cons_succ, List.take_succ_cons, scanStartAcc_cons, hc]
          exact hdisj
        · intro j hj hs hlt
          cases j with
          | zero => exact hE'
          | succ j' =>
            rw [List.getD_cons_succ]
            exact hnoend j' (by simpa using hj) (by omega) (by omega)
        · intro j hj hs hle
          cases j with
          | zero =>
            by_cases hS : isStart l = true
            · rw [if_pos hS] at hc
              injection hc with hc
              rcases scanLoop_some_start_ge h with h' | h'
              · injection h' with h'
                omega
              · omega
            · simpa using hS
          | succ j' =>
            rw [List.getD_cons_succ]
            exact hnostart j' (by simpa using hj) (by omega) (by omega)

/-- Composition of the scan over an appended list. -/
theorem scanLoop_append {isStart isEnd : LC → Bool} :
    ∀ (A : List LC) (B : List LC) (st : Option Nat) (i : Nat),
      scanLoop isStart isEnd st i (A ++ B) =
        match scanLoop isStart isEnd st i A with
        | some r => some r
        | none => scanLoop isStart isEnd (scanStartAcc isStart st i A) (i + A.length) B := by
  intro A
  induction A with
  | nil =>
    intro B st i
    simp [scanLoop_nil, scanStartAcc_nil]
  | cons l A' ih =>
    intro B st i
    rcases hc : (if isStart l then some i else st) with _ | s₁
    · rw [List.cons_append, scanLoop_cons_none hc, scanLoop_cons_none hc, ih,
        scanStartAcc_cons, hc]
      simp only [List.length_cons]
      have : i + 1 + A'.length = i + (A'.length + 1) := by omega
      rw [this]
    · by_cases hE : isEnd l = true
      · rw [List.cons_append, scanLoop_cons_break hc hE, scanLoop_cons_break hc hE]
      · have hE' : isEnd l = false := by simpa using hE
        rw [List.cons_append, scanLoop_cons_step hc hE', scanLoop_cons_step hc hE', ih,
          scanStartAcc_cons, hc]
        simp only [List.length_cons]
        have : i + 1 + A'.length = i + (A'.length + 1) := by omega
        rw [this]

/-- `scanLoop` over an appended list when the first part produces no
break. -/
theorem scanLoop_append_none {isStart isEnd : LC → Bool} {A : List LC} (B : List LC)
    {st : Option Nat} {i : Nat} (h : scanLoop isStart isEnd st i A = none) :
    scanLoop isStart isEnd st i (A ++ B) =
      scanLoop isStart isEnd (scanStartAcc isStart st i A) (i + A.length) B := by
  rw [scanLoop_append A B st i, h]

/-- The top-level characterization used by claim C8: when the scan finds
`(s, e)`, line `s` is an opening line, line `e` is a closing line at or
after it, no line in `[s, e)` is a closing line, and no line in `(s, e]`
is an opening line. -/
theorem scanAnchor_spec {isStart isEnd : LC → Bool} {ls : List LC} {s e : Nat}
    (h : scanLoop isStart isEnd none 0 ls = some (s, e)) :
    s ≤ e ∧ e < ls.length ∧ isStart (ls.getD s []) = true ∧ isEnd (ls.getD e []) = true ∧
    (∀ j, s ≤ j → j < e → isEnd (ls.getD j []) = false) ∧
    (∀ j, s < j → j ≤ e → isStart (ls.getD j []) = false) := by
  obtain ⟨_, hlen, hEnd, _, hdisj, hnoend, hnostart⟩ := scanLoop_sound h
  simp only [Nat.sub_zero] at hlen hEnd hdisj
  have he_lt : e < ls.length := hlen
  have hse_start : s ≤ e ∧ isStart (ls.getD s []) = true := by
    rcases hdisj with ⟨hS, hs⟩ | ⟨hS, hacc⟩
    · subst hs
      exact ⟨Nat.le_refl _, hS⟩
    · rcases scanStartAcc_some hacc with h' | ⟨h1, h2, h3⟩
      · cases h'
      · have hlt : s < e := by
          have := h2
          simp only [List.length_take] at this
          omega
        rw [Nat.sub_zero] at h3
        rw [getD_take_of_lt ls hlt] at h3
        exact ⟨Nat.le_of_lt hlt, h3⟩
  refine ⟨hse_start.1, he_lt, hse_start.2, hEnd, ?_, ?_⟩
  · intro j hs hlt
    have := hnoend j (by omega) (by omega) (by omega)
    exact this
  · intro j hs hle
    have := hnostart j (by omega) (by omega) (by omega)
    exact this

/-- The facts needed to re-run the scan after an insertion at `e` when
`s < e`: the first `e` lines produce no break and leave the accumulator at
`s`, and line `e` is a closing but not an opening line. -/
theorem scanLoop_take_facts {isStart isEnd : LC → Bool} {ls : List LC} {s e : Nat}
    (h : scanLoop isStart isEnd none 0 ls = some (s, e)) (hse : s < e) :
    scanLoop isStart isEnd none 0 (ls.take e) = none ∧
    scanStartAcc isStart none 0 (ls.take e) = some s ∧
    isStart (ls.getD e []) = false ∧ isEnd (ls.getD e []) = true := by
  obtain ⟨_, hlen, hEnd, htake, hdisj, _, _⟩ := scanLoop_sound h
  simp only [Nat.sub_zero] at hlen hEnd htake hdisj
  rcases hdisj with ⟨_, hs⟩ | ⟨hS, hacc⟩
  · omega
  · exact ⟨htake, hacc, hS, hEnd⟩

/-- Re-running the scan on the line list with a new, scan-neutral line
inserted at position `e` finds the block `(s, e + 1)`. -/
theorem scan_after_insert {isStart isEnd : LC → Bool} {ls : List LC} {s e : Nat} {cfg : LC}
    (h : scanLoop isStart isEnd none 0 ls = some (s, e)) (hse : s < e)
    (hcS : isStart cfg = false) (hcE : isEnd cfg = false) :
    scanLoop isStart isEnd none 0 (ls.take e ++ cfg :: ls.drop e) = some (s, e + 1) := by
  obtain ⟨htake, hacc, hSe, hEe⟩ := scanLoop_take_facts h hse
  have he_lt : e < ls.length := by
    have := (scanLoop_sound h).2.1
    simpa using this
  have hlen : (ls.take e).length = e := by
    simp only [List.length_take]
    omega
  rw [scanLoop_append_none (cfg :: ls.drop e) htake, hacc, hlen, Nat.zero_add]
  have hstep : (if isStart cfg = true then some e else some s) = some s := by
    rw [hcS]
    simp
  rw [scanLoop_cons_step hstep hcE]
  have hdrop : ls.drop e = ls[e] :: ls.drop (e + 1) := List.drop_eq_getElem_cons he_lt
  rw [hdrop]
  have hSe' : isStart ls[e] = false := by
    rw [getD_eq_getElem he_lt] at hSe
    exact hSe
  have hEe' : isEnd ls[e] = true := by
    rw [getD_eq_getElem he_lt] at hEe
    exact hEe
  have hstep2 : (if isStart ls[e] = true then some (e + 1) else some s) = some s := by
    rw [hSe']
    simp
  rw [scanLoop_cons_break hstep2 hEe']

/-! ## Lemmas about indentation detection -/

theorem detectIndent_eq_nil : ∀ {ls : List LC},
    (∀ l ∈ ls, (pyStrip l).isEmpty = true ∨ "#".toList.isPrefixOf (pyStrip l) = true) →
    detectIndent ls = [] := by
  intro ls
  induction ls with
  | nil => intro _; rfl
  | cons l rest ih =>
    intro h
    unfold detectIndent
    have hcond : (!(pyStrip l).isEmpty && !("#".toList.isPrefixOf (pyStrip l))) = false := by
      rcases h l (List.mem_cons_self _ _) with h' | h' <;> rw [h'] <;> simp
    rw [hcond]
    simp only [Bool.false_eq_true, if_false]
    exact ih fun x hx => h x (List.mem_cons_of_mem _ hx)

theorem detectIndent_mem : ∀ {ls : List LC}, detectIndent ls ≠ [] →
    ∃ l ∈ ls, detectIndent ls = pyLeadingWhite l := by
  intro ls
  induction ls with
  | nil => intro h; exact absurd rfl h
  | cons l rest ih =>
    intro h
    unfold detectIndent at h ⊢
    by_cases hc : (!(pyStrip l).isEmpty && !("#".toList.isPrefixOf (pyStrip l))) = true
    · rw [if_pos hc]
      exact ⟨l, List.mem_cons_self _ _, rfl⟩
    · rw [if_neg hc] at h ⊢
      obtain ⟨x, hx, hex⟩ := ih h
      exact ⟨x, List.mem_cons_of_mem _ hx, hex⟩

/-! ## Claim theorems -/

/-- Claim C10 (confirmed).  When, after the locate scan succeeds, every line
strictly between the opening and closing lines is blank or a comment — in
particular for an empty or one-line anchor list — the patch helpers cannot
detect indentation, report failure, and return the input content
unchanged.  Stated for both `append_app_to_base_settings` (on the split
lines) and `append_url_to_main_urls` (on the lines after its
import-fixing phase). -/
theorem claim_C10_indent_failure :
    (∀ (syntaxOk : LC → Bool) (content app_name : LC) (s e : Nat),
      (validate_base_settings_content content).1 = true →
      syntaxOk content = true →
      scanLoop isStartSettings isEndSettings none 0 (splitLines content) = some (s, e) →
      (∀ l ∈ ((splitLines content).drop (s + 1)).take (e - (s + 1)),
        (pyStrip l).isEmpty = true ∨ "#".toList.isPrefixOf (pyStrip l) = true) →
      append_app_to_base_settings syntaxOk content app_name =
        (content, false, "Cannot determine indentation".toList)) ∧
    (∀ (syntaxOk : LC → Bool) (content app_name : LC) (s e : Nat),
      (validate_main_urls_content content).1 = true →
      syntaxOk content = true →
      scanLoop isStartUrls isEndUrls none 0 (fixedImportLines content) = some (s, e) →
      (∀ l ∈ ((fixedImportLines content).drop (s + 1)).take (e - (s + 1)),
        (pyStrip l).isEmpty = true ∨ "#".toList.isPrefixOf (pyStrip l) = true) →
      append_url_to_main_urls syntaxOk content app_name =
        (content, false, "Cannot determine indentation".toList)) := by
  constructor
  · intro syntaxOk content app_name s e hv hs hscan hblank
    have hind := detectIndent_eq_nil hblank
    unfold append_app_to_base_settings
    rw [hv, hs]
    simp only [Bool.not_true, Bool.false_eq_true, if_false]
    rw [hscan]
    simp [hind]
  · intro syntaxOk content app_name s e hv hs hscan hblank
    have hind := detectIndent_eq_nil hblank
    unfold append_url_to_main_urls
    rw [hv, hs]
    simp only [Bool.not_true, Bool.false_eq_true, if_false]
    rw [hscan]
    simp [hind]

/-- Witness for C10: a one-line `INSTALLED_APPS` and an empty
`urlpatterns` both fail with "Cannot determine indentation" and unchanged
content. -/
theorem claim_C10_witness :
    append_app_to_base_settings (fun _ => true) "INSTALLED_APPS = [ ]".toList "blog".toList =
      ("INSTALLED_APPS = [ ]".toList, false, "Cannot determine indentation".toList) ∧
    append_url_to_main_urls (fun _ => true)
        "from django.urls import path, include\nurlpatterns = [\n]".toList "blog".toList =
      ("from django.urls import path, include\nurlpatterns = [\n]".toList, false,
        "Cannot determine indentation".toList) := by
  constructor
  · exact claim_C10_indent_failure.1 (fun _ => true) _ _ 0 0 (by decide) rfl (by decide)
      (by decide)
  · exact claim_C10_indent_failure.2 (fun _ => true) _ _ 1 2 (by decide) rfl (by decide)
      (by decide)

/-- Claim C8 (counterexample).  The claim reads the closing line as the
first line containing `']'` *strictly after* the opening line.  On the
one-line content `INSTALLED_APPS = [ ]` the code's scan selects the
opening line itself as closing line (`some (0, 0)`), whereas the claimed
rule (`locateSpecStrict`, modelled from the spec's words) finds no
closing line at all. -/
theorem claim_C8_counterexample :
    scanLoop isStartSettings isEndSettings none 0
        (splitLines "INSTALLED_APPS = [ ]".toList) = some (0, 0) ∧
    locateSpecStrict isStartSettings isEndSettings
        (splitLines "INSTALLED_APPS = [ ]".toList) = none ∧
    append_app_to_base_settings (fun _ => true) "INSTALLED_APPS = [ ]".toList
        "shop".toList =
      ("INSTALLED_APPS = [ ]".toList, false, "Cannot determine indentation".toList) := by
  refine ⟨by decide, by decide, by decide⟩

/-- Claim C8 (amended).  Whenever the settings patcher inserts an entry, the
locate scan found `(s, e)` where line `s` is an opening line (starts with
the anchor token and contains `'['`), line `e` is the first line
containing `']'` *at or after* line `s` (the opening line itself can serve
as the closing line), no line in `(s, e]` is an opening line, and the new
entry is inserted immediately before line `e`. -/
theorem claim_C8_amended :
    ∀ (syntaxOk : LC → Bool) (content app_name c' cfg : LC),
      append_app_to_base_settings syntaxOk content app_name = (c', true, cfg) →
      ∃ s e, scanLoop isStartSettings isEndSettings none 0 (splitLines content) = some (s, e) ∧
        s ≤ e ∧ e < (splitLines content).length ∧
        isStartSettings ((splitLines content).getD s []) = true ∧
        isEndSettings ((splitLines content).getD e []) = true ∧
        (∀ j, s ≤ j → j < e → isEndSettings ((splitLines content).getD j []) = false) ∧
        (∀ j, s < j → j ≤ e → isStartSettings ((splitLines content).getD j []) = false) ∧
        c' = joinLines ((splitLines content).take e ++ cfg :: (splitLines content).drop e) := by
  intro syntaxOk content app_name c' cfg h
  unfold append_app_to_base_settings at h
  split at h
  · simp at h
  · split at h
    · simp at h
    · split at h
      · simp at h
      · next s e hscan =>
        dsimp only at h
        split at h
        · simp at h
        · split at h
          · simp at h
          · split at h
            · rw [Prod.mk.injEq, Prod.mk.injEq] at h
              obtain ⟨hc', _, hcfg⟩ := h
              obtain ⟨hse, hlen, hS, hE, hnoend, hnostart⟩ := scanAnchor_spec hscan
              exact ⟨s, e, hscan, hse, hlen, hS, hE, hnoend, hnostart,
                hc'.symm.trans (by rw [hcfg])⟩
            · simp at h

/-- Witness for C8: the concrete successful patch of a two-entry block. -/
theorem claim_C8_amended_witness :
    ∃ s e, scanLoop isStartSettings isEndSettings none 0
        (splitLines "INSTALLED_APPS = [\n    'foo',\n]".toList) = some (s, e) ∧
      s ≤ e ∧ e < (splitLines "INSTALLED_APPS = [\n    'foo',\n]".toList).length ∧
      isStartSettings ((splitLines "INSTALLED_APPS = [\n    'foo',\n]".toList).getD s []) = true ∧
      isEndSettings ((splitLines "INSTALLED_APPS = [\n    'foo',\n]".toList).getD e []) = true ∧
      (∀ j, s ≤ j → j < e →
        isEndSettings ((splitLines "INSTALLED_APPS = [\n    'foo',\n]".toList).getD j []) = false) ∧
      (∀ j, s < j → j ≤ e →
        isStartSettings ((splitLines "INSTALLED_APPS = [\n    'foo',\n]".toList).getD j []) = false) ∧
      "INSTALLED_APPS = [\n    'foo',\n    'blog.apps.BlogConfig',\n]".toList =
        joinLines ((splitLines "INSTALLED_APPS = [\n    'foo',\n]".toList).take e ++
          "    'blog.apps.BlogConfig',".toList ::
            (splitLines "INSTALLED_APPS = [\n    'foo',\n]".toList).drop e) :=
  claim_C8_amended (fun _ => true) "INSTALLED_APPS = [\n    'foo',\n]".toList "blog".toList
    "INSTALLED_APPS = [\n    'foo',\n    'blog.apps.BlogConfig',\n]".toList
    "    'blog.apps.BlogConfig',".toList (by decide)

/-! ## Helper lemmas for the idempotence claim -/

theorem isPrefixOf_cons_head_ne {a b : Char} {p l : LC} (h : a ≠ b) :
    (a :: p).isPrefixOf (b :: l) = false := by
  simp [List.isPrefixOf_cons₂, h]

/-- A character outside `ind`, `app`, both ASCII letter ranges and the
literal punctuation of the template does not occur in the inserted
settings entry. -/
theorem not_mem_settingsAppConfig {ind app : LC} {c : Char}
    (h1 : c ∉ ind) (h2 : c ∉ app)
    (hup : ¬(65 ≤ c.toNat ∧ c.toNat ≤ 90)) (hlo : ¬(97 ≤ c.toNat ∧ c.toNat ≤ 122))
    (h3 : c ≠ '\'') (h4 : c ∉ ".apps.".toList) (h5 : c ∉ "Config',".toList) :
    c ∉ settingsAppConfig ind app := by
  unfold settingsAppConfig
  intro hmem
  simp only [List.mem_append, List.mem_singleton] at hmem
  rcases hmem with ((((hm | hm) | hm) | hm) | hm) | hm
  · exact h1 hm
  · exact h3 hm
  · exact h2 hm
  · exact h4 hm
  · exact h2 (mem_of_mem_pyTitle hup hlo hm)
  · exact h5 hm

/-- Facts recoverable from a passing post-patch validation. -/
theorem validate_base_settings_result_elim {syntaxOk : LC → Bool} {nc : LC}
    (h : (validate_base_settings_result syntaxOk nc).1 = true) :
    containsSub "INSTALLED_APPS".toList nc = true ∧ syntaxOk nc = true := by
  unfold validate_base_settings_result at h
  split at h
  · cases h
  · split at h
    · cases h
    · next h1 h2 =>
      constructor
      · rcases hb : containsSub "INSTALLED_APPS".toList nc with _ | _
        · rw [hb] at h1
          simp at h1
        · rfl
      · rcases hb : syntaxOk nc with _ | _
        · rw [hb] at h2
          simp at h2
        · rfl

/-- Core of the idempotence claim: re-running the settings patcher on the
content produced by a successful insertion reports no update and returns
that content unchanged (for app names free of `']'` and newlines). -/
theorem append_detects_inserted_entry
    {syntaxOk : LC → Bool} {app_name : LC} {L : List LC} {s e : Nat}
    (hnl : ('\n' : Char) ∉ app_name) (hbr : (']' : Char) ∉ app_name)
    (hLnl : ∀ l ∈ L, ('\n' : Char) ∉ l)
    (hscan : scanLoop isStartSettings isEndSettings none 0 L = some (s, e))
    (hind : ¬(detectIndent ((L.drop (s + 1)).take (e - (s + 1)))).isEmpty = true)
    (hdup : ((L.drop (s + 1)).take (e - (s + 1))).find?
        (lineMatchesApp (app_patterns app_name)) = none)
    (hvalid : (validate_base_settings_result syntaxOk
        (joinLines (L.take e ++
          settingsAppConfig (detectIndent ((L.drop (s + 1)).take (e - (s + 1)))) app_name ::
          L.drop e))).1 = true) :
    ∃ msg, append_app_to_base_settings syntaxOk
        (joinLines (L.take e ++
          settingsAppConfig (detectIndent ((L.drop (s + 1)).take (e - (s + 1)))) app_name ::
          L.drop e)) app_name =
      (joinLines (L.take e ++
        settingsAppConfig (detectIndent ((L.drop (s + 1)).take (e - (s + 1)))) app_name ::
        L.drop e), false, msg) := by
  obtain ⟨hcont2, hsyn2⟩ := validate_base_settings_result_elim hvalid
  -- abbreviations
  set EX := (L.drop (s + 1)).take (e - (s + 1)) with hEX
  set IND := detectIndent EX with hIND
  set CFG := settingsAppConfig IND app_name with hCFG
  set NEW := joinLines (L.take e ++ CFG :: L.drop e) with hNEW
  -- the block is at least two lines wide
  have hindne : IND ≠ [] := by
    intro h0
    rw [h0] at hind
    exact hind rfl
  have hexne : EX ≠ [] := by
    intro h0
    apply hindne
    rw [hIND, h0]
    rfl
  have hse2 : s + 2 ≤ e := by
    have h0 : e - (s + 1) ≠ 0 := by
      intro h0
      apply hexne
      rw [hEX, h0]
      rfl
    omega
  have hse : s < e := by omega
  have he_lt : e < L.length := (scanAnchor_spec hscan).2.1
  -- the detected indentation is whitespace from a newline-free line
  obtain ⟨lw, hlw_mem, hlw_eq⟩ := detectIndent_mem (show detectIndent EX ≠ [] from hIND ▸ hindne)
  have hlw_in_L : lw ∈ L := List.mem_of_mem_drop (List.mem_of_mem_take (hEX ▸ hlw_mem))
  have hind_space : ∀ a ∈ IND, isPySpace a = true := by
    intro a ha
    rw [hIND, hlw_eq] at ha
    exact (mem_pyLeadingWhite ha).1
  have hind_nl : ('\n' : Char) ∉ IND := by
    intro ha
    rw [hIND, hlw_eq] at ha
    exact hLnl lw hlw_in_L (mem_pyLeadingWhite ha).2
  have hind_br : (']' : Char) ∉ IND := by
    intro ha
    have := hind_space _ ha
    simp [isPySpace] at this
  -- the inserted entry is free of newlines and closing brackets
  have hcfg_nl : ('\n' : Char) ∉ CFG := by
    rw [hCFG]
    exact not_mem_settingsAppConfig hind_nl hnl (by decide) (by decide) (by decide)
      (by decide) (by decide)
  have hcfg_br : (']' : Char) ∉ CFG := by
    rw [hCFG]
    exact not_mem_settingsAppConfig hind_br hbr (by decide) (by decide) (by decide)
      (by decide) (by decide)
  -- the re-split of the new content is the old lines with the entry inserted
  have hsplitNEW : splitLines NEW = L.take e ++ CFG :: L.drop e := by
    rw [hNEW]
    apply splitLines_joinLines
    · intro l hl
      rcases List.mem_append.1 hl with hl | hl
      · exact hLnl l (List.mem_of_mem_take hl)
      · rcases List.mem_cons.1 hl with hl | hl
        · exact hl ▸ hcfg_nl
        · exact hLnl l (List.mem_of_mem_drop hl)
    · simp
  -- the strip of the inserted entry, and its scan-neutrality
  have hshape : CFG = IND ++ '\'' ::
      ((app_name ++ ".apps.".toList ++ pyTitle app_name ++ "Config".toList ++ ['\'']) ++ [',']) := by
    rw [hCFG]
    unfold settingsAppConfig
    have h0 : "Config',".toList = "Config".toList ++ ['\'', ','] := rfl
    rw [h0]
    simp [List.append_assoc]
  have hstrip : pyStrip CFG = '\'' ::
      ((app_name ++ ".apps.".toList ++ pyTitle app_name ++ "Config".toList ++ ['\'']) ++ [',']) := by
    rw [hshape]
    exact pyStrip_sandwich hind_space (by decide) (by decide)
  have hIA : "INSTALLED_APPS".toList = 'I' :: "NSTALLED_APPS".toList := rfl
  have hSc : isStartSettings CFG = false := by
    unfold isStartSettings
    rw [hstrip, hIA, isPrefixOf_cons_head_ne (by decide)]
    rfl
  have hEc : isEndSettings CFG = false := by
    unfold isEndSettings
    have h0 : "]".toList = [(']' : Char)] := rfl
    rw [h0]
    exact not_containsSub_single hcfg_br
  -- the second scan finds the block extended by one line
  have hscan2 : scanLoop isStartSettings isEndSettings none 0 (splitLines NEW) =
      some (s, e + 1) := by
    rw [hsplitNEW]
    exact scan_after_insert hscan hse hSc hEc
  -- the existing lines of the second call are the old ones plus the entry
  have hex2 : ((splitLines NEW).drop (s + 1)).take (e + 1 - (s + 1)) = EX ++ [CFG] := by
    rw [hsplitNEW]
    have hlenA : (L.take e).length = e := by
      simp only [List.length_take]
      omega
    rw [List.drop_append_of_le_length (by rw [hlenA]; omega)]
    rw [List.take_append_eq_append_take]
    have hlenX : ((L.take e).drop (s + 1)).length = e - (s + 1) := by
      simp [hlenA]
    rw [List.take_of_length_le (by rw [hlenX]; omega)]
    have h1 : e + 1 - (s + 1) - ((L.take e).drop (s + 1)).length = 1 := by
      rw [hlenX]
      omega
    rw [h1]
    have h2 : (CFG :: L.drop e).take 1 = [CFG] := by simp
    rw [h2, List.drop_take]
  -- the inserted entry matches the duplicate check
  have hmatch : lineMatchesApp (app_patterns app_name) CFG = true := by
    unfold lineMatchesApp
    dsimp only
    have hhash : "#".toList = [('#' : Char)] := rfl
    rw [hstrip, hhash, isPrefixOf_cons_head_ne (by decide)]
    simp only [Bool.false_eq_true, if_false, app_patterns, List.any_cons, Bool.or_eq_true]
    left
    left
    apply containsSub_of_isPrefixOf
    have hsh : ('\'' ::
        ((app_name ++ ".apps.".toList ++ pyTitle app_name ++ "Config".toList ++ ['\'']) ++ [','])) =
        ('\'' :: (app_name ++ ".apps.".toList ++ pyTitle app_name ++ "Config".toList ++ ['\''])) ++
          [','] := by
      simp
    rw [hsh]
    have hsh2 : ('\'' :: (app_name ++ ".apps.".toList ++ pyTitle app_name ++ "Config".toList) ++
        ['\'']) = '\'' :: (app_name ++ ".apps.".toList ++ pyTitle app_name ++ "Config".toList ++
        ['\'']) := by
      simp
    rw [← hsh2]
    exact isPrefixOf_append_self _ _
  have hdup2 : (EX ++ [CFG]).find? (lineMatchesApp (app_patterns app_name)) = some CFG := by
    rw [List.find?_append, hdup]
    simp [hmatch]
  -- pre-validation of the second call passes
  have hImem : ('I' : Char) ∈ NEW := mem_of_containsSub hcont2 (by decide)
  have hne : (pyStrip NEW).isEmpty = false :=
    pyStrip_isEmpty_false_of_mem hImem (by decide)
  have hv2 : (validate_base_settings_content NEW).1 = true := by
    unfold validate_base_settings_content
    rw [hne, hcont2]
    rfl
  -- assemble the second call
  by_cases hind2 : (detectIndent (EX ++ [CFG])).isEmpty = true
  · refine ⟨"Cannot determine indentation".toList, ?_⟩
    unfold append_app_to_base_settings
    rw [hv2, hsyn2]
    simp only [Bool.not_true, Bool.false_eq_true, if_false]
    rw [hscan2]
    dsimp only
    rw [hex2, hind2]
    rfl
  · refine ⟨"App already exists in line: ".toList ++ pyStrip CFG, ?_⟩
    unfold append_app_to_base_settings
    rw [hv2, hsyn2]
    simp only [Bool.not_true, Bool.false_eq_true, if_false]
    rw [hscan2]
    dsimp only
    rw [hex2, hdup2]
    simp [hind2]

/-- Claim C1 (counterexample).  Idempotence fails as universally stated: for
the app name `a][b` (whose `']'` makes the inserted entry a closing line
for the next scan) the first call inserts the entry, and a second call
with the same name inserts it again, changing the content.  All contents
involved are syntactically valid Python, so the constant-true syntax
oracle agrees with the `compile` check of the source on them. -/
theorem claim_C1_counterexample :
    (append_app_to_base_settings (fun _ => true)
        "INSTALLED_APPS = [\n    'foo',\n]".toList "a][b".toList).2.1 = true ∧
    (append_app_to_base_settings (fun _ => true)
        (append_app_to_base_settings (fun _ => true)
          "INSTALLED_APPS = [\n    'foo',\n]".toList "a][b".toList).1 "a][b".toList).2.1 = true ∧
    (append_app_to_base_settings (fun _ => true)
        (append_app_to_base_settings (fun _ => true)
          "INSTALLED_APPS = [\n    'foo',\n]".toList "a][b".toList).1 "a][b".toList).1 ≠
      (append_app_to_base_settings (fun _ => true)
        "INSTALLED_APPS = [\n    'foo',\n]".toList "a][b".toList).1 := by
  refine ⟨by decide, by decide, by decide⟩

/-- Claim C1 (amended).  For every settings-file content, syntax oracle and
app name containing neither `']'` nor a newline, if a first call to
`append_app_to_base_settings` inserts the app entry, then a second call
with the same app name reports no update and returns content identical to
the result of the first call. -/
theorem claim_C1_amended :
    ∀ (syntaxOk : LC → Bool) (content app_name c1 cfg : LC),
      ('\n' : Char) ∉ app_name → (']' : Char) ∉ app_name →
      append_app_to_base_settings syntaxOk content app_name = (c1, true, cfg) →
      ∃ msg, append_app_to_base_settings syntaxOk c1 app_name = (c1, false, msg) := by
  intro syntaxOk content app_name c1 cfg hnl hbr h
  unfold append_app_to_base_settings at h
  split at h
  · simp at h
  · split at h
    · simp at h
    · split at h
      · simp at h
      · next s e hscan =>
        dsimp only at h
        split at h
        · simp at h
        · next hind =>
          split at h
          · simp at h
          · next hdup =>
            split at h
            · next hvalid =>
              rw [Prod.mk.injEq, Prod.mk.injEq] at h
              obtain ⟨hc1, _, hcfg⟩ := h
              subst hc1
              exact append_detects_inserted_entry hnl hbr
                (fun l hl => splitLines_no_newline hl) hscan hind hdup hvalid
            · simp at h

/-- Witness for C1: a second `blog` patch on the patched content is a
reported no-op. -/
theorem claim_C1_amended_witness :
    ∃ msg, append_app_to_base_settings (fun _ => true)
        "INSTALLED_APPS = [\n    'foo',\n    'blog.apps.BlogConfig',\n]".toList "blog".toList =
      ("INSTALLED_APPS = [\n    'foo',\n    'blog.apps.BlogConfig',\n]".toList, false, msg) :=
  claim_C1_amended (fun _ => true) "INSTALLED_APPS = [\n    'foo',\n]".toList "blog".toList
    "INSTALLED_APPS = [\n    'foo',\n    'blog.apps.BlogConfig',\n]".toList
    "    'blog.apps.BlogConfig',".toList (by decide) (by decide) (by decide)

/-- Claim C3 (confirmed).  For config content missing the anchor token
(`INSTALLED_APPS` for settings, `urlpatterns` for URLs), the patch helpers
return a failure indicator with the content unchanged, and the file-level
operations leave the live config file's content unchanged and return
`false`. -/
theorem claim_C3_missing_anchor :
    (∀ (syntaxOk : LC → Bool) (c app : LC),
      containsSub "INSTALLED_APPS".toList c = false →
      ∃ msg, append_app_to_base_settings syntaxOk c app = (c, false, msg)) ∧
    (∀ (syntaxOk : LC → Bool) (c app : LC),
      containsSub "urlpatterns".toList c = false →
      ∃ msg, append_url_to_main_urls syntaxOk c app = (c, false, msg)) ∧
    (∀ (syntaxOk : LC → Bool) (ts failC app c : LC) (wf : Bool) (fs : ConfigFs),
      fs.live = some c → containsSub "INSTALLED_APPS".toList c = false →
      (update_base_settings syntaxOk ts wf failC app false fs).1.live = some c ∧
      (update_base_settings syntaxOk ts wf failC app false fs).2.1 = false) ∧
    (∀ (syntaxOk : LC → Bool) (ts failC app c : LC) (wf : Bool) (fs : ConfigFs),
      fs.live = some c → containsSub "urlpatterns".toList c = false →
      (update_main_urls syntaxOk ts wf failC app false fs).1.live = some c ∧
      (update_main_urls syntaxOk ts wf failC app false fs).2.1 = false) := by
  have hsettings : ∀ (syntaxOk : LC → Bool) (c app : LC),
      containsSub "INSTALLED_APPS".toList c = false →
      ∃ msg, append_app_to_base_settings syntaxOk c app = (c, false, msg) := by
    intro syntaxOk c app hc
    have hv : (validate_base_settings_content c).1 = false := by
      unfold validate_base_settings_content
      by_cases h0 : (pyStrip c).isEmpty = true
      · rw [if_pos h0]
      · rw [if_neg h0,
          if_pos (show (!containsSub "INSTALLED_APPS".toList c) = true by rw [hc]; rfl)]
    refine ⟨"Pre-validation failed: ".toList ++ (validate_base_settings_content c).2, ?_⟩
    unfold append_app_to_base_settings
    rw [hv]
    simp
  have hurls : ∀ (syntaxOk : LC → Bool) (c app : LC),
      containsSub "urlpatterns".toList c = false →
      ∃ msg, append_url_to_main_urls syntaxOk c app = (c, false, msg) := by
    intro syntaxOk c app hc
    have hv : (validate_main_urls_content c).1 = false := by
      unfold validate_main_urls_content
      by_cases h0 : (pyStrip c).isEmpty = true
      · rw [if_pos h0]
      · rw [if_neg h0,
          if_pos (show (!containsSub "urlpatterns".toList c) = true by rw [hc]; rfl)]
    refine ⟨"Pre-validation failed: ".toList ++ (validate_main_urls_content c).2, ?_⟩
    unfold append_url_to_main_urls
    rw [hv]
    simp
  refine ⟨hsettings, hurls, ?_, ?_⟩
  · intro syntaxOk ts failC app c wf fs hlive hc
    obtain ⟨msg, hmsg⟩ := hsettings syntaxOk c app hc
    unfold update_base_settings
    rw [hlive]
    simp only [Bool.false_eq_true, if_false]
    rw [hmsg]
    simp
  · intro syntaxOk ts failC app c wf fs hlive hc
    obtain ⟨msg, hmsg⟩ := hurls syntaxOk c app hc
    unfold update_main_urls
    rw [hlive]
    simp only [Bool.false_eq_true, if_false]
    rw [hmsg]
    simp

/-- Witness for C3: content without the anchor tokens is left unchanged by
both the helpers and the file-level operations. -/
theorem claim_C3_witness :
    (∃ msg, append_app_to_base_settings (fun _ => true) "x = 1".toList "blog".toList =
      ("x = 1".toList, false, msg)) ∧
    (update_base_settings (fun _ => true) "20240101_000000".toList false [] "blog".toList false
        ⟨some "x = 1".toList, []⟩).1.live = some "x = 1".toList := by
  constructor
  · exact claim_C3_missing_anchor.1 (fun _ => true) "x = 1".toList "blog".toList (by decide)
  · exact (claim_C3_missing_anchor.2.2.1 (fun _ => true) "20240101_000000".toList []
      "blog".toList "x = 1".toList false ⟨some "x = 1".toList, []⟩ rfl (by decide)).1

/-- Claim C5 (confirmed).  The restore operation copies over the live file
the content of the backup-directory entry whose filename is
lexicographically last among those matching the naming pattern (prefix
`base.py.` / `urls.py.`, suffix `.bak`); when no entry matches — in
particular for an empty backup directory — it returns failure and leaves
the live file unchanged.  (Selection is stated for a strictly dominant
matching name; real backup directories cannot contain two equal
filenames.) -/
theorem claim_C5_restore :
    (∀ (syntaxOk : LC → Bool) (ts failC app : LC) (wf : Bool) (fs : ConfigFs),
      (∀ x ∈ fs.backups, matchesBackup "base.py.".toList ".bak".toList x.1 = false) →
      update_base_settings syntaxOk ts wf failC app true fs = (fs, false, [])) ∧
    (∀ (syntaxOk : LC → Bool) (ts failC app : LC) (wf : Bool) (fs : ConfigFs) (m : LC × LC),
      m ∈ fs.backups → matchesBackup "base.py.".toList ".bak".toList m.1 = true →
      (∀ x ∈ fs.backups, x ≠ m → matchesBackup "base.py.".toList ".bak".toList x.1 = true →
        lexLt x.1 m.1 = true) →
      update_base_settings syntaxOk ts wf failC app true fs =
        ({ fs with live := some m.2 }, true, [FsEvent.liveWrite true m.2])) ∧
    (∀ (syntaxOk : LC → Bool) (ts failC app : LC) (wf : Bool) (fs : ConfigFs),
      (∀ x ∈ fs.backups, matchesBackup "urls.py.".toList ".bak".toList x.1 = false) →
      update_main_urls syntaxOk ts wf failC app true fs = (fs, false, [])) ∧
    (∀ (syntaxOk : LC → Bool) (ts failC app : LC) (wf : Bool) (fs : ConfigFs) (m : LC × LC),
      m ∈ fs.backups → matchesBackup "urls.py.".toList ".bak".toList m.1 = true →
      (∀ x ∈ fs.backups, x ≠ m → matchesBackup "urls.py.".toList ".bak".toList x.1 = true →
        lexLt x.1 m.1 = true) →
      update_main_urls syntaxOk ts wf failC app true fs =
        ({ fs with live := some m.2 }, true, [FsEvent.liveWrite true m.2])) := by
  refine ⟨?_, ?_, ?_, ?_⟩
  · intro syntaxOk ts failC app wf fs hnone
    unfold update_base_settings
    dsimp only
    rw [if_pos rfl, get_latest_backup_eq_none hnone]
  · intro syntaxOk ts failC app wf fs m hmem hmatch hdom
    unfold update_base_settings
    dsimp only
    rw [if_pos rfl, get_latest_backup_dominant hmem hmatch hdom]
  · intro syntaxOk ts failC app wf fs hnone
    unfold update_main_urls
    dsimp only
    rw [if_pos rfl, get_latest_backup_eq_none hnone]
  · intro syntaxOk ts failC app wf fs m hmem hmatch hdom
    unfold update_main_urls
    dsimp only
    rw [if_pos rfl, get_latest_backup_dominant hmem hmatch hdom]

/-- Witness for C5: an empty backup directory fails and leaves the live
file untouched; a populated one restores the lexicographically last
matching backup. -/
theorem claim_C5_witness :
    update_base_settings (fun _ => true) "ts".toList false [] "blog".toList true
        ⟨some "LIVE".toList, []⟩ = (⟨some "LIVE".toList, []⟩, false, []) ∧
    update_main_urls (fun _ => true) "ts".toList false [] "blog".toList true
        ⟨some "LIVE".toList,
          [("urls.py.20240101_000000.bak".toList, "A".toList),
           ("urls.py.20240202_000000.bak".toList, "B".toList)]⟩ =
      (⟨some "B".toList,
          [("urls.py.20240101_000000.bak".toList, "A".toList),
           ("urls.py.20240202_000000.bak".toList, "B".toList)]⟩, true,
        [FsEvent.liveWrite true "B".toList]) := by
  constructor
  · exact claim_C5_restore.1 (fun _ => true) "ts".toList [] "blog".toList false
      ⟨some "LIVE".toList, []⟩ (by decide)
  · exact claim_C5_restore.2.2.2 (fun _ => true) "ts".toList [] "blog".toList false
      ⟨some "LIVE".toList,
        [("urls.py.20240101_000000.bak".toList, "A".toList),
         ("urls.py.20240202_000000.bak".toList, "B".toList)]⟩
      ("urls.py.20240202_000000.bak".toList, "B".toList) (by decide) (by decide) (by decide)

/-- Claim C4 (counterexample).  The round trip fails from an arbitrary
backup-directory state: when a pre-existing backup filename sorts
lexicographically after the fresh backup's timestamped name, the restore
after a successful patch copies that older backup, not the pre-patch
content.  Here the pre-patch content is `INSTALLED_APPS = [\n    'x',\n]`
but restore yields `OLD`. -/
theorem claim_C4_counterexample :
    (update_base_settings (fun _ => true) "20240101_000000".toList false [] "blog".toList false
        ⟨some "INSTALLED_APPS = [\n    'x',\n]".toList,
          [("base.py.99999999_999999.bak".toList, "OLD".toList)]⟩).2.1 = true ∧
    (update_base_settings (fun _ => true) "20240606_000000".toList false [] [] true
        (update_base_settings (fun _ => true) "20240101_000000".toList false [] "blog".toList false
          ⟨some "INSTALLED_APPS = [\n    'x',\n]".toList,
            [("base.py.99999999_999999.bak".toList, "OLD".toList)]⟩).1).1.live =
      some "OLD".toList ∧
    ("OLD".toList : LC) ≠ "INSTALLED_APPS = [\n    'x',\n]".toList := by
  refine ⟨by decide, by decide, by decide⟩

/-- Claim C4 (amended).  Starting from any backup directory state in which
every matching pre-existing backup filename is lexicographically smaller
than the fresh backup's name (as holds when timestamps increase
monotonically), a successful patch followed by restore makes the live
file byte-identical to the pre-patch content. -/
theorem claim_C4_amended :
    ∀ (syntaxOk : LC → Bool) (ts ts2 failC failC2 app app2 : LC) (fs : ConfigFs) (orig : LC),
      fs.live = some orig →
      (∀ x ∈ fs.backups, matchesBackup "base.py.".toList ".bak".toList x.1 = true →
        lexLt x.1 (backupName "base.py.".toList ts) = true) →
      (update_base_settings syntaxOk ts false failC app false fs).2.1 = true →
      ((update_base_settings syntaxOk ts2 false failC2 app2 true
          (update_base_settings syntaxOk ts false failC app false fs).1).1.live = some orig ∧
        (update_base_settings syntaxOk ts2 false failC2 app2 true
          (update_base_settings syntaxOk ts false failC app false fs).1).2.1 = true) := by
  intro syntaxOk ts ts2 failC failC2 app app2 fs orig hlive hdom hflag
  unfold update_base_settings at hflag ⊢
  rw [hlive] at hflag ⊢
  simp only [Bool.false_eq_true, if_false] at hflag ⊢
  by_cases hupd : (append_app_to_base_settings syntaxOk orig app).2.1 = true
  · rw [if_pos hupd] at hflag ⊢
    have hsel : get_latest_backup "base.py.".toList ".bak".toList
        ((backupName "base.py.".toList ts, orig) :: fs.backups) =
        some (backupName "base.py.".toList ts, orig) := by
      apply get_latest_backup_dominant (List.mem_cons_self _ _) (matchesBackup_backupName _ _)
      intro x hx hxne hxm
      rcases List.mem_cons.1 hx with h | h
      · exact absurd h hxne
      · exact hdom x h hxm
    dsimp only
    rw [hsel]
    exact ⟨rfl, rfl⟩
  · rw [if_neg hupd] at hflag
    simp at hflag

/-- Witness for C4: patch then restore reproduces the pre-patch content
when the backup directory starts empty. -/
theorem claim_C4_witness :
    ((update_base_settings (fun _ => true) "20240606_000000".toList false [] [] true
        (update_base_settings (fun _ => true) "20240101_000000".toList false [] "blog".toList false
          ⟨some "INSTALLED_APPS = [\n    'x',\n]".toList, []⟩).1).1.live =
      some "INSTALLED_APPS = [\n    'x',\n]".toList) ∧
    ((update_base_settings (fun _ => true) "20240606_000000".toList false [] [] true
        (update_base_settings (fun _ => true) "20240101_000000".toList false [] "blog".toList false
          ⟨some "INSTALLED_APPS = [\n    'x',\n]".toList, []⟩).1).2.1 = true) :=
  claim_C4_amended (fun _ => true) "20240101_000000".toList "20240606_000000".toList [] []
    "blog".toList [] ⟨some "INSTALLED_APPS = [\n    'x',\n]".toList, []⟩
    "INSTALLED_APPS = [\n    'x',\n]".toList rfl (by decide) (by decide)

/-- Claim C2 (counterexample).  The invariant fails as universally stated:
when the config file does not exist but the backup directory holds an old
backup, the run's exception handler copies that backup over the config
path — the run mutates (creates) the config file — yet no backup of any
pre-patch content is written during the run. -/
theorem claim_C2_counterexample :
    (update_base_settings (fun _ => true) "20240101_000000".toList false [] "blog".toList false
        ⟨none, [("base.py.20200101_000000.bak".toList, "OLD".toList)]⟩).1.live =
      some "OLD".toList ∧
    ((update_base_settings (fun _ => true) "20240101_000000".toList false [] "blog".toList false
        ⟨none, [("base.py.20200101_000000.bak".toList, "OLD".toList)]⟩).2.2.all
      fun ev => !ev.isBackup) = true := by
  refine ⟨by decide, by decide⟩

/-- Claim C2 (amended).  For every run of a patch operation on a config file
that exists at the start of the call: exactly one timestamped backup of
the pre-patch content is written, as the first write of the run, before
any write of the live file; and when the write of the new content raises,
the original content is copied back from that backup within the same call
before the failure (a `false` return) is surfaced.  Stated for both
`update_base_settings` and `update_main_urls`. -/
theorem claim_C2_amended :
    (∀ (syntaxOk : LC → Bool) (ts failC app : LC) (wf : Bool) (fs : ConfigFs) (orig : LC),
      fs.live = some orig →
      ∃ rest, (update_base_settings syntaxOk ts wf failC app false fs).2.2 =
          FsEvent.backupWrite (backupName "base.py.".toList ts) orig :: rest ∧
        (rest.all fun ev => !ev.isBackup) = true) ∧
    (∀ (syntaxOk : LC → Bool) (ts failC app : LC) (fs : ConfigFs) (orig : LC),
      fs.live = some orig →
      (append_app_to_base_settings syntaxOk orig app).2.1 = true →
      (update_base_settings syntaxOk ts true failC app false fs).2.1 = false ∧
      ∃ c, (update_base_settings syntaxOk ts true failC app false fs).2.2 =
        [FsEvent.backupWrite (backupName "base.py.".toList ts) orig,
         FsEvent.liveWrite false failC, FsEvent.liveWrite true orig,
         FsEvent.liveWrite true c]) ∧
    (∀ (syntaxOk : LC → Bool) (ts failC app : LC) (wf : Bool) (fs : ConfigFs) (orig : LC),
      fs.live = some orig →
      ∃ rest, (update_main_urls syntaxOk ts wf failC app false fs).2.2 =
          FsEvent.backupWrite (backupName "urls.py.".toList ts) orig :: rest ∧
        (rest.all fun ev => !ev.isBackup) = true) ∧
    (∀ (syntaxOk : LC → Bool) (ts failC app : LC) (fs : ConfigFs) (orig : LC),
      fs.live = some orig →
      (append_url_to_main_urls syntaxOk orig app).2.1 = true →
      (update_main_urls syntaxOk ts true failC app false fs).2.1 = false ∧
      ∃ c, (update_main_urls syntaxOk ts true failC app false fs).2.2 =
        [FsEvent.backupWrite (backupName "urls.py.".toList ts) orig,
         FsEvent.liveWrite false failC, FsEvent.liveWrite true orig,
         FsEvent.liveWrite true c]) := by
  refine ⟨?_, ?_, ?_, ?_⟩
  · intro syntaxOk ts failC app wf fs orig hlive
    unfold update_base_settings
    dsimp only
    rw [if_neg (by simp), hlive]
    dsimp only
    by_cases hupd : (append_app_to_base_settings syntaxOk orig app).2.1 = true
    · rw [if_pos hupd]
      by_cases hwf : wf = true
      · rw [if_pos hwf]
        rcases hgl : get_latest_backup "base.py.".toList ".bak".toList
            ((backupName "base.py.".toList ts, orig) :: fs.backups) with _ | b
        · exact absurd hgl (get_latest_backup_cons_ne_none (matchesBackup_backupName _ _))
        · exact ⟨_, rfl, by simp [FsEvent.isBackup]⟩
      · rw [if_neg hwf]
        exact ⟨_, rfl, by simp [FsEvent.isBackup]⟩
    · rw [if_neg hupd]
      exact ⟨[], rfl, rfl⟩
  · intro syntaxOk ts failC app fs orig hlive hupd
    unfold update_base_settings
    dsimp only
    rw [if_neg (by simp), hlive]
    dsimp only
    rw [if_pos hupd, if_pos rfl]
    rcases hgl : get_latest_backup "base.py.".toList ".bak".toList
        ((backupName "base.py.".toList ts, orig) :: fs.backups) with _ | b
    · exact absurd hgl (get_latest_backup_cons_ne_none (matchesBackup_backupName _ _))
    · exact ⟨rfl, b.2, rfl⟩
  · intro syntaxOk ts failC app wf fs orig hlive
    unfold update_main_urls
    dsimp only
    rw [if_neg (by simp), hlive]
    dsimp only
    by_cases hupd : (append_url_to_main_urls syntaxOk orig app).2.1 = true
    · rw [if_pos hupd]
      by_cases hwf : wf = true
      · rw [if_pos hwf]
        rcases hgl : get_latest_backup "urls.py.".toList ".bak".toList
            ((backupName "urls.py.".toList ts, orig) :: fs.backups) with _ | b
        · exact absurd hgl (get_latest_backup_cons_ne_none (matchesBackup_backupName _ _))
        · exact ⟨_, rfl, by simp [FsEvent.isBackup]⟩
      · rw [if_neg hwf]
        exact ⟨_, rfl, by simp [FsEvent.isBackup]⟩
    · rw [if_neg hupd]
      exact ⟨[], rfl, rfl⟩
  · intro syntaxOk ts failC app fs orig hlive hupd
    unfold update_main_urls
    dsimp only
    rw [if_neg (by simp), hlive]
    dsimp only
    rw [if_pos hupd, if_pos rfl]
    rcases hgl : get_latest_backup "urls.py.".toList ".bak".toList
        ((backupName "urls.py.".toList ts, orig) :: fs.backups) with _ | b
    · exact absurd hgl (get_latest_backup_cons_ne_none (matchesBackup_backupName _ _))
    · exact ⟨rfl, b.2, rfl⟩

/-- Witness for C2: a run on an existing settings file writes exactly one
leading backup, and with an injected write failure the original content is
copied back before `false` is returned. -/
theorem claim_C2_witness :
    (∃ rest, (update_base_settings (fun _ => true) "20240101_000000".toList false []
        "blog".toList false ⟨some "INSTALLED_APPS = [\n    'x',\n]".toList, []⟩).2.2 =
        FsEvent.backupWrite (backupName "base.py.".toList "20240101_000000".toList)
          "INSTALLED_APPS = [\n    'x',\n]".toList :: rest ∧
      (rest.all fun ev => !ev.isBackup) = true) ∧
    ((update_base_settings (fun _ => true) "20240101_000000".toList true "JUNK".toList
        "blog".toList false ⟨some "INSTALLED_APPS = [\n    'x',\n]".toList, []⟩).2.1 = false ∧
      ∃ c, (update_base_settings (fun _ => true) "20240101_000000".toList true "JUNK".toList
        "blog".toList false ⟨some "INSTALLED_APPS = [\n    'x',\n]".toList, []⟩).2.2 =
        [FsEvent.backupWrite (backupName "base.py.".toList "20240101_000000".toList)
           "INSTALLED_APPS = [\n    'x',\n]".toList,
         FsEvent.liveWrite false "JUNK".toList,
         FsEvent.liveWrite true "INSTALLED_APPS = [\n    'x',\n]".toList,
         FsEvent.liveWrite true c]) := by
  constructor
  · exact claim_C2_amended.1 (fun _ => true) "20240101_000000".toList [] "blog".toList false
      ⟨some "INSTALLED_APPS = [\n    'x',\n]".toList, []⟩
      "INSTALLED_APPS = [\n    'x',\n]".toList rfl
  · exact claim_C2_amended.2.1 (fun _ => true) "20240101_000000".toList "JUNK".toList
      "blog".toList ⟨some "INSTALLED_APPS = [\n    'x',\n]".toList, []⟩
      "INSTALLED_APPS = [\n    'x',\n]".toList rfl (by decide)

/-! ## Frame and flag lemmas for the scaffolder -/

theorem create_directory_files {can : LC → Bool} {path : LC} {fs : ScafFs} :
    ((create_directory can path fs).1).files = fs.files := by
  unfold create_directory
  by_cases h : can path = true
  · rw [if_pos h]
  · rw [if_neg h]

theorem create_file_preserves {can : LC → Bool} {q cont : LC} {fs : ScafFs} {p c : LC}
    (h : findFile fs.files p = some c) :
    findFile ((create_file can q cont fs).1).files p = some c := by
  unfold create_file
  rcases hq : findFile fs.files q with _ | d
  · dsimp only
    by_cases hcan : can q = true
    · rw [if_pos hcan]
      dsimp only
      unfold findFile
      dsimp only
      by_cases hqp : q = p
      · subst hqp
        rw [hq] at h
        cases h
      · rw [if_neg hqp]
        exact h
    · rw [if_neg hcan]
      exact h
  · exact h

theorem fileLoop_preserves {can : LC → Bool} {ad : LC} :
    ∀ {es : List (LC × LC)} {fs : ScafFs} {p c : LC},
      findFile fs.files p = some c →
      findFile ((fileLoop can ad es fs).1).files p = some c := by
  intro es
  induction es with
  | nil => intro fs p c h; exact h
  | cons e rest ih =>
    intro fs p c h
    unfold fileLoop
    dsimp only
    exact ih (create_file_preserves h)

theorem dirLoop_preserves {can : LC → Bool} {ic : LC → LC} {ad : LC} :
    ∀ {ds : List LC} {fs : ScafFs} {p c : LC},
      findFile fs.files p = some c →
      findFile ((dirLoop can ic ad ds fs).1).files p = some c := by
  intro ds
  induction ds with
  | nil => intro fs p c h; exact h
  | cons d rest ih =>
    intro fs p c h
    unfold dirLoop
    dsimp only
    have hdir : findFile ((create_directory can (pjoin ad d) fs).1).files p = some c := by
      rw [create_directory_files]
      exact h
    by_cases h1 : (create_directory can (pjoin ad d) fs).2 = true
    · rw [if_neg (by rw [h1]; simp)]
      by_cases h2 : (["templates/".toList, "static/".toList].any fun q => q.isPrefixOf d) = true
      · rw [if_neg (by rw [h2]; simp)]
        exact ih hdir
      · rw [if_pos (by rw [eq_false_of_ne_true h2]; rfl)]
        exact ih (create_file_preserves hdir)
    · rw [if_pos (by rw [eq_false_of_ne_true h1]; rfl)]
      exact ih hdir

theorem create_app_structure_preserves {can : LC → Bool} {ic : LC → LC}
    {mvf fls : List (LC × LC)} {app base : LC} {fs : ScafFs} {p c : LC}
    (h : findFile fs.files p = some c) :
    findFile ((create_app_structure can ic mvf fls app base fs).1).files p = some c := by
  unfold create_app_structure
  set ad := pjoin (pjoin base "apps".toList) app with had
  dsimp only
  by_cases h0 : (create_directory can ad fs).2 = true
  · rw [if_neg (by rw [h0]; simp)]
    have h1 : findFile ((create_directory can ad fs).1).files p = some c := by
      rw [create_directory_files]
      exact h
    exact fileLoop_preserves (fileLoop_preserves (dirLoop_preserves h1))
  · rw [if_pos (by rw [eq_false_of_ne_true h0]; rfl)]
    rw [create_directory_files]
    exact h

theorem fileLoop_flag {can : LC → Bool} {ad : LC} :
    ∀ {es : List (LC × LC)} {fs : ScafFs},
      (fileLoop can ad es fs).2.1 = ((fileLoop can ad es fs).2.2.all ScafEvent.evOk) := by
  intro es
  induction es with
  | nil => intro fs; rfl
  | cons e rest ih =>
    intro fs
    unfold fileLoop
    dsimp only
    rw [List.all_cons, ih]
    rfl

theorem dirLoop_flag {can : LC → Bool} {ic : LC → LC} {ad : LC} :
    ∀ {ds : List LC} {fs : ScafFs},
      (dirLoop can ic ad ds fs).2.1 = ((dirLoop can ic ad ds fs).2.2.all ScafEvent.evOk) := by
  intro ds
  induction ds with
  | nil => intro fs; rfl
  | cons d rest ih =>
    intro fs
    unfold dirLoop
    dsimp only
    by_cases h1 : (create_directory can (pjoin ad d) fs).2 = true
    · rw [if_neg (by rw [h1]; simp)]
      by_cases h2 : (["templates/".toList, "static/".toList].any fun q => q.isPrefixOf d) = true
      · rw [if_neg (by rw [h2]; simp)]
        dsimp only
        rw [List.all_cons, ih]
        rfl
      · rw [if_pos (by rw [eq_false_of_ne_true h2]; rfl)]
        dsimp only
        rw [List.all_cons, List.all_cons, ih]
        rfl
    · rw [if_pos (by rw [eq_false_of_ne_true h1]; rfl)]
      dsimp only
      rw [List.all_cons]
      simp [ScafEvent.evOk]

theorem fileLoop_attempted {can : LC → Bool} {ad : LC} :
    ∀ {es : List (LC × LC)} {fs : ScafFs} {pc : LC × LC}, pc ∈ es →
      ∃ b, ScafEvent.mkfile (pjoin ad pc.1) b ∈ (fileLoop can ad es fs).2.2 := by
  intro es
  induction es with
  | nil => intro fs pc h; cases h
  | cons e rest ih =>
    intro fs pc h
    unfold fileLoop
    dsimp only
    rcases List.mem_cons.1 h with h | h
    · subst h
      exact ⟨_, List.mem_cons_self _ _⟩
    · obtain ⟨b, hb⟩ := ih h
      exact ⟨b, List.mem_cons_of_mem _ hb⟩

theorem dirLoop_attempted {can : LC → Bool} {ic : LC → LC} {ad : LC} :
    ∀ {ds : List LC} {fs : ScafFs} {d : LC}, d ∈ ds →
      ∃ b, ScafEvent.mkdir (pjoin ad d) b ∈ (dirLoop can ic ad ds fs).2.2 := by
  intro ds
  induction ds with
  | nil => intro fs d h; cases h
  | cons d0 rest ih =>
    intro fs d h
    unfold dirLoop
    dsimp only
    by_cases h1 : (create_directory can (pjoin ad d0) fs).2 = true
    · rw [if_neg (by rw [h1]; simp)]
      by_cases h2 : (["templates/".toList, "static/".toList].any fun q => q.isPrefixOf d0) = true
      · rw [if_neg (by rw [h2]; simp)]
        dsimp only
        rcases List.mem_cons.1 h with h | h
        · subst h
          exact ⟨true, List.mem_cons_self _ _⟩
        · obtain ⟨b, hb⟩ := ih h
          exact ⟨b, List.mem_cons_of_mem _ hb⟩
      · rw [if_pos (by rw [eq_false_of_ne_true h2]; rfl)]
        dsimp only
        rcases List.mem_cons.1 h with h | h
        · subst h
          exact ⟨true, List.mem_cons_self _ _⟩
        · obtain ⟨b, hb⟩ := ih h
          exact ⟨b, List.mem_cons_of_mem _ (List.mem_cons_of_mem _ hb)⟩
    · rw [if_pos (by rw [eq_false_of_ne_true h1]; rfl)]
      dsimp only
      rcases List.mem_cons.1 h with h | h
      · subst h
        exact ⟨false, List.mem_cons_self _ _⟩
      · obtain ⟨b, hb⟩ := ih h
        exact ⟨b, List.mem_cons_of_mem _ hb⟩

/-- Claim C6 (confirmed).  `create_file` leaves an existing file's content
unchanged and returns success; consequently a second scaffolder run over
the output of a first run changes no pre-existing file's content
(regardless of the template catalog and OS-failure oracle). -/
theorem claim_C6_no_overwrite :
    (∀ (can : LC → Bool) (p content c : LC) (fs : ScafFs),
      findFile fs.files p = some c →
      create_file can p content fs = (fs, true)) ∧
    (∀ (can : LC → Bool) (ic : LC → LC) (mvf fls : List (LC × LC)) (app base : LC)
      (fs : ScafFs) (p c : LC),
      findFile ((create_app_structure can ic mvf fls app base fs).1).files p = some c →
      findFile ((create_app_structure can ic mvf fls app base
        (create_app_structure can ic mvf fls app base fs).1).1).files p = some c) := by
  constructor
  · intro can p content c fs h
    unfold create_file
    rw [h]
  · intro can ic mvf fls app base fs p c h
    exact create_app_structure_preserves h

/-- Witness for C6: a pre-existing file keeps its content through
`create_file` and through a full second scaffolder run. -/
theorem claim_C6_witness :
    create_file (fun _ => true) "a.py".toList "NEW".toList
        ⟨[("a.py".toList, "OLD".toList)], []⟩ =
      (⟨[("a.py".toList, "OLD".toList)], []⟩, true) ∧
    findFile ((create_app_structure (fun _ => true) (fun _ => "i".toList)
        [("m.py".toList, "M".toList)] [("f.py".toList, "F".toList)] "blog".toList ".".toList
        (create_app_structure (fun _ => true) (fun _ => "i".toList)
          [("m.py".toList, "M".toList)] [("f.py".toList, "F".toList)] "blog".toList ".".toList
          ⟨[], []⟩).1).1).files "./apps/blog/m.py".toList = some "M".toList := by
  constructor
  · exact claim_C6_no_overwrite.1 (fun _ => true) "a.py".toList "NEW".toList "OLD".toList
      ⟨[("a.py".toList, "OLD".toList)], []⟩ rfl
  · exact claim_C6_no_overwrite.2 (fun _ => true) (fun _ => "i".toList)
      [("m.py".toList, "M".toList)] [("f.py".toList, "F".toList)] "blog".toList ".".toList
      ⟨[], []⟩ "./apps/blog/m.py".toList "M".toList (by decide)

/-- Claim C7 (counterexample).  "No failure aborts the rest of the run" is
false: when creating the base app directory itself fails,
`create_app_structure` returns immediately — its trace holds only that one
failed operation, and no remaining operation (e.g. the `migrations`
directory) is attempted. -/
theorem claim_C7_counterexample :
    create_app_structure (fun p => decide (p ≠ "./apps/blog".toList)) (fun _ => "i".toList)
        [("m.py".toList, "M".toList)] [] "blog".toList ".".toList ⟨[], []⟩ =
      (⟨[], []⟩, false, [ScafEvent.mkdir "./apps/blog".toList false]) ∧
    (∀ b, ScafEvent.mkdir "./apps/blog/migrations".toList b ∉
      (create_app_structure (fun p => decide (p ≠ "./apps/blog".toList)) (fun _ => "i".toList)
        [("m.py".toList, "M".toList)] [] "blog".toList ".".toList ⟨[], []⟩).2.2) := by
  refine ⟨by decide, by decide⟩

/-- Claim C7 (amended).  `create_app_structure` returns `true` exactly when
every create operation it performed succeeded (its result flag equals the
conjunction of all traced operation results).  A failure of the initial
base app directory creation aborts the run immediately; once it succeeds,
every directory in the catalog and every file of the two template
dictionaries is attempted regardless of earlier failures (a failed
directory's own `__init__.py` being the one skipped dependent). -/
theorem claim_C7_amended :
    (∀ (can : LC → Bool) (ic : LC → LC) (mvf fls : List (LC × LC)) (app base : LC)
      (fs : ScafFs),
      (create_app_structure can ic mvf fls app base fs).2.1 =
        ((create_app_structure can ic mvf fls app base fs).2.2.all ScafEvent.evOk)) ∧
    (∀ (can : LC → Bool) (ic : LC → LC) (mvf fls : List (LC × LC)) (app base : LC)
      (fs : ScafFs),
      can (pjoin (pjoin base "apps".toList) app) = false →
      create_app_structure can ic mvf fls app base fs =
        (fs, false, [ScafEvent.mkdir (pjoin (pjoin base "apps".toList) app) false])) ∧
    (∀ (can : LC → Bool) (ic : LC → LC) (mvf fls : List (LC × LC)) (app base : LC)
      (fs : ScafFs),
      can (pjoin (pjoin base "apps".toList) app) = true →
      (∀ d ∈ app_directories app, ∃ b,
        ScafEvent.mkdir (pjoin (pjoin (pjoin base "apps".toList) app) d) b ∈
          (create_app_structure can ic mvf fls app base fs).2.2) ∧
      (∀ pc ∈ mvf ++ fls, ∃ b,
        ScafEvent.mkfile (pjoin (pjoin (pjoin base "apps".toList) app) pc.1) b ∈
          (create_app_structure can ic mvf fls app base fs).2.2)) := by
  refine ⟨?_, ?_, ?_⟩
  · intro can ic mvf fls app base fs
    unfold create_app_structure
    set ad := pjoin (pjoin base "apps".toList) app with had
    dsimp only
    by_cases h0 : (create_directory can ad fs).2 = true
    · rw [if_neg (by rw [h0]; simp)]
      dsimp only
      rw [List.all_cons, List.all_append, List.all_append, dirLoop_flag, fileLoop_flag,
        fileLoop_flag]
      simp [ScafEvent.evOk, Bool.and_assoc]
    · rw [if_pos (by rw [eq_false_of_ne_true h0]; rfl)]
      rfl
  · intro can ic mvf fls app base fs h0
    unfold create_app_structure create_directory
    dsimp only
    rw [h0]
    simp
  · intro can ic mvf fls app base fs h0
    unfold create_app_structure
    set ad := pjoin (pjoin base "apps".toList) app with had
    dsimp only
    have h0' : (create_directory can ad fs).2 = true := by
      unfold create_directory
      rw [h0]
      rfl
    rw [if_neg (by rw [h0']; simp)]
    dsimp only
    constructor
    · intro d hd
      obtain ⟨b, hb⟩ := dirLoop_attempted hd
      exact ⟨b, List.mem_cons_of_mem _ (List.mem_append_left _ (List.mem_append_left _ hb))⟩
    · intro pc hpc
      rcases List.mem_append.1 hpc with hpc | hpc
      · obtain ⟨b, hb⟩ := fileLoop_attempted hpc
        exact ⟨b, List.mem_cons_of_mem _ (List.mem_append_left _ (List.mem_append_right _ hb))⟩
      · obtain ⟨b, hb⟩ := fileLoop_attempted hpc
        exact ⟨b, List.mem_cons_of_mem _ (List.mem_append_right _ hb)⟩

/-- Witness for C7: on a run with one injected directory failure, the
returned flag is false and equals the conjunction of the traced results,
while every catalog entry was still attempted. -/
theorem claim_C7_witness :
    ((create_app_structure (fun p => decide (p ≠ "./apps/blog/core".toList))
        (fun _ => "i".toList) [("m.py".toList, "M".toList)] [] "blog".toList ".".toList
        ⟨[], []⟩).2.1 =
      ((create_app_structure (fun p => decide (p ≠ "./apps/blog/core".toList))
        (fun _ => "i".toList) [("m.py".toList, "M".toList)] [] "blog".toList ".".toList
        ⟨[], []⟩).2.2.all ScafEvent.evOk)) ∧
    (∃ b, ScafEvent.mkdir "./apps/blog/migrations".toList b ∈
      (create_app_structure (fun p => decide (p ≠ "./apps/blog/core".toList))
        (fun _ => "i".toList) [("m.py".toList, "M".toList)] [] "blog".toList ".".toList
        ⟨[], []⟩).2.2) := by
  constructor
  · exact claim_C7_amended.1 (fun p => decide (p ≠ "./apps/blog/core".toList))
      (fun _ => "i".toList) [("m.py".toList, "M".toList)] [] "blog".toList ".".toList ⟨[], []⟩
  · exact (claim_C7_amended.2.2 (fun p => decide (p ≠ "./apps/blog/core".toList))
      (fun _ => "i".toList) [("m.py".toList, "M".toList)] [] "blog".toList ".".toList ⟨[], []⟩
      (by decide)).1 "migrations".toList (by decide)

/-- A forbidden member of the list makes the accumulated forbidden-name
list non-empty. -/
theorem forbiddenLoop_ne_nil {a : LC} :
    ∀ {names : List LC}, a ∈ names → a ∈ FORBIDDEN_APP_NAMES →
      (forbiddenLoop names).1 ≠ [] := by
  intro names
  induction names with
  | nil => intro h; cases h
  | cons n rest ih =>
    intro hmem hforb
    unfold forbiddenLoop
    dsimp only
    by_cases hn : FORBIDDEN_APP_NAMES.contains n = true
    · rw [if_pos hn]
      simp
    · rw [if_neg hn]
      rcases List.mem_cons.1 hmem with h | h
      · subst h
        exact absurd (List.elem_eq_true_of_mem hforb) hn
      · exact ih h hforb

/-- Claim C9 (confirmed).  When the requested app list contains a forbidden
built-in name such as `admin`, `main` returns failure before invoking any
phase — for every behavior of the guide, restore, init and add phases the
filesystem is returned unchanged with a `false` result. -/
theorem claim_C9_forbidden_rejected :
    ∀ (guidePhase restorePhase initPhase addPhase : ScafFs → ScafFs × Bool)
      (args : Args) (fs : ScafFs) (apps : List LC) (a : LC),
      args.apps = some apps → a ∈ apps → a ∈ FORBIDDEN_APP_NAMES →
      main guidePhase restorePhase initPhase addPhase args fs = (fs, false) := by
  intro gp rp ip ap args fs apps a hargs hmem hforb
  unfold main
  rw [hargs]
  dsimp only
  have hne : apps.isEmpty = false := by
    cases apps with
    | nil => cases hmem
    | cons x xs => rfl
  have hcheck : (check_forbidden_app_names (some apps)).1 = true := by
    unfold check_forbidden_app_names
    dsimp only
    rcases hl : (forbiddenLoop apps).1 with _ | _
    · exact absurd hl (forbiddenLoop_ne_nil hmem hforb)
    · rfl
  rw [hne, hcheck]
  rfl

/-- Witness for C9: requesting the app name `admin` is rejected with the
filesystem untouched, whatever the phases would do. -/
theorem claim_C9_witness :
    main (fun fs => (fs, true)) (fun fs => (fs, true)) (fun fs => (fs, true))
        (fun fs => (fs, true))
        ⟨false, "init".toList, "proj".toList, some ["admin".toList], false, false,
          "g.md".toList, false⟩ ⟨[], []⟩ =
      (⟨[], []⟩, false) :=
  claim_C9_forbidden_rejected (fun fs => (fs, true)) (fun fs => (fs, true))
    (fun fs => (fs, true)) (fun fs => (fs, true))
    ⟨false, "init".toList, "proj".toList, some ["admin".toList], false, false,
      "g.md".toList, false⟩ ⟨[], []⟩ ["admin".toList] "admin".toList rfl (by decide) (by decide)

end DjangoInit
